import Mathlib

/-
Verification of the Packaging & Availability Completion Engine
(src/fields/packaging_math.py).

Modelling conventions:
* A Python value that can occupy one of the six packaging/availability
  fields of a CanonicalRow is modelled by `Value` (absent/None, bool, int,
  float, str).  The TypedDict allows a key to be missing or to hold None;
  both are modelled by `Value.none` (the code only ever inspects fields
  through `row.get(k) is None`, which identifies the two, and
  `_finalize_availability_ints` always materialises the three availability
  keys, so the distinction is not observable in any field value).
* Python floats are modelled by `PyFloat`: a finite value is an exact
  rational (real IEEE arithmetic rounds to 53 bits and can overflow; the
  engine only multiplies and divides small supplier quantities, and the
  spec itself states identities exactly), while the special values
  inf, -inf and nan are modelled explicitly because `float(s)` produces
  them for the strings "inf"/"infinity"/"nan" and `math.ceil` raises on
  them (OverflowError / ValueError).
* Operations that can raise in Python return `Except Unit`; `.error ()`
  models an escaping exception.
* `float(s)` string parsing is modelled by `parsePyFloat` for the grammar
  sign, digits, optional fraction, optional exponent, and the special
  words inf/infinity/nan (case-insensitive).  Underscore digit separators
  and hexadecimal forms are not modelled; no claim depends on them.
-/

namespace PackagingMath

/-- An exact rational represented as an unnormalized fraction
`num / (pden + 1)`.  The denominator is stored minus one so that it is
positive by construction.  This representation is used instead of `ℚ`
because the engine must be executable inside the kernel on concrete
records, and `ℚ` normalizes through `Nat.gcd`, which does not reduce
there.  `Frac.val` gives the rational value; the bridge lemmas below show
that every operation computes the exact rational operation. -/
structure Frac where
  num : ℤ
  pden : ℕ
deriving DecidableEq

/-- The (always positive) denominator. -/
def Frac.den (f : Frac) : ℤ := (f.pden : ℤ) + 1

/-- The rational value of the fraction. -/
def Frac.val (f : Frac) : ℚ := (f.num : ℚ) / (f.den : ℚ)

/-- Build a fraction from an integer. -/
def Frac.ofInt (n : ℤ) : Frac := ⟨n, 0⟩

/-- Build a fraction from a numerator and an (intended positive)
denominator given as naturals. -/
def Frac.ofNats (n d : ℕ) : Frac := ⟨(n : ℤ), d - 1⟩

/-- Build a fraction from a numerator and an (intended strictly positive)
integer denominator. -/
def Frac.mkPos (n d : ℤ) : Frac := ⟨n, d.toNat - 1⟩

/-- Negate a fraction. -/
def Frac.neg (f : Frac) : Frac := ⟨-f.num, f.pden⟩

/-- Python `v > 0` on the represented value. -/
def Frac.posB (f : Frac) : Bool := decide (0 < f.num)

/-- Python `v < 0` on the represented value. -/
def Frac.negB (f : Frac) : Bool := decide (f.num < 0)

/-- Python `v <= 0` on the represented value. -/
def Frac.le0B (f : Frac) : Bool := decide (f.num ≤ 0)

/-- Python `v != 0` on the represented value. -/
def Frac.neZeroB (f : Frac) : Bool := decide (f.num ≠ 0)

/-- Python `==` between the represented values (cross multiplication is
valid because denominators are positive). -/
def Frac.eqB (a b : Frac) : Bool := decide (a.num * b.den = b.num * a.den)

/-- Exact product. -/
def Frac.mul (a b : Frac) : Frac :=
  ⟨a.num * b.num, a.pden * b.pden + a.pden + b.pden⟩

/-- Exact quotient.  A zero divisor would raise ZeroDivisionError in
Python; every division site in the source is guarded by a strict
positivity check on the divisor, so that case is unreachable (mapped to
zero here). -/
def Frac.div (a b : Frac) : Frac :=
  if 0 < b.num then Frac.mkPos (a.num * b.den) (a.den * b.num)
  else if b.num < 0 then Frac.mkPos (-(a.num * b.den)) (a.den * (-b.num))
  else ⟨0, 0⟩

/-- Rounded-up integer value (`math.ceil`), computed by floor division. -/
def Frac.ceil (f : Frac) : ℤ := -((-f.num).fdiv f.den)

/-- Model of a CPython float value: an exact finite rational or one of the
special values produced by `float("inf")`, `float("-inf")`, `float("nan")`. -/
inductive PyFloat where
  | finite (q : Frac)
  | inf
  | neginf
  | nan
deriving DecidableEq

/-- Model of a Python value occupying a CanonicalRow field relevant to the
engine.  `Value.none` stands for a missing key as well as an explicit None. -/
inductive Value where
  | none
  | bool (b : Bool)
  | int (n : ℤ)
  | float (f : PyFloat)
  | str (s : String)
deriving DecidableEq

/-- Numeric value of a run of decimal digit characters. -/
def digitsToNat (cs : List Char) : ℕ :=
  cs.foldl (fun a c => 10 * a + (c.toNat - 48)) 0

/-- Parse the decimal-number part of the `float(s)` grammar:
digits, optional fraction, optional exponent; the whole input must be
consumed and at least one digit must appear before the exponent.  The
value digits.frac x 10^e is built as an exact fraction. -/
def parseDecimal (cs : List Char) : Option Frac :=
  let (ip, r1) := cs.span Char.isDigit
  let (fp, r2) := match r1 with
    | '.' :: r => r.span Char.isDigit
    | _ => ([], r1)
  if ip.isEmpty ∧ fp.isEmpty then Option.none
  else
    let mn : ℕ := digitsToNat (ip ++ fp)
    let md : ℕ := 10 ^ fp.length
    match r2 with
    | [] => some (Frac.ofNats mn md)
    | e :: r3 =>
      if e = 'e' ∨ e = 'E' then
        let (eneg, r4) : Bool × List Char := match r3 with
          | '+' :: r => (false, r)
          | '-' :: r => (true, r)
          | r => (false, r)
        let (ed, r5) := r4.span Char.isDigit
        if ed.isEmpty ∨ ¬ r5.isEmpty then Option.none
        else if eneg then some (Frac.ofNats mn (md * 10 ^ digitsToNat ed))
        else some (Frac.ofNats (mn * 10 ^ digitsToNat ed) md)
      else Option.none

/-- Parse an unsigned magnitude of the `float(s)` grammar: the special
words inf / infinity / nan (case-insensitive) or a decimal number. -/
def parseMagnitude (cs : List Char) (neg : Bool) : Option PyFloat :=
  let low := cs.map Char.toLower
  if low = ['i', 'n', 'f'] ∨ low = ['i', 'n', 'f', 'i', 'n', 'i', 't', 'y'] then
    some (if neg then PyFloat.neginf else PyFloat.inf)
  else if low = ['n', 'a', 'n'] then some PyFloat.nan
  else (parseDecimal cs).map (fun q => PyFloat.finite (if neg then q.neg else q))

/-- Model of CPython `float(s)` on an already stripped character list:
optional sign followed by a magnitude. -/
def parsePyFloat (s : List Char) : Option PyFloat :=
  match s with
  | '+' :: r => parseMagnitude r false
  | '-' :: r => parseMagnitude r true
  | cs => parseMagnitude cs false

/-- The whitespace characters removed by Python `str.strip` (ASCII). -/
def isPySpace (c : Char) : Bool :=
  c = ' ' ∨ c = '\t' ∨ c = '\n' ∨ c = '\x0d' ∨ c = '\x0b' ∨ c = '\x0c'

/-- Python `s.strip()` over the character list. -/
def stripChars (cs : List Char) : List Char :=
  ((cs.dropWhile isPySpace).reverse.dropWhile isPySpace).reverse

/-- `_to_number`: convert int/float or numeric-like strings to a float,
None (here `Option.none`) if not possible.  Booleans never coerce.  The
string branch strips, rejects the empty result, replaces every comma by a
dot and applies `float(s)`. -/
def toNumber : Value → Option PyFloat
  | Value.none => Option.none
  | Value.bool _ => Option.none
  | Value.int n => some (PyFloat.finite (Frac.ofInt n))
  | Value.float f => some f
  | Value.str s =>
      let t := stripChars s.data
      if t.isEmpty then Option.none
      else parsePyFloat (t.map (fun c => if c = ',' then '.' else c))

/-- Python `f > 0` on a float. -/
def PyFloat.pos : PyFloat → Bool
  | PyFloat.finite q => q.posB
  | PyFloat.inf => true
  | PyFloat.neginf => false
  | PyFloat.nan => false

/-- Python `f <= 0` on a float (false for nan). -/
def PyFloat.le0 : PyFloat → Bool
  | PyFloat.finite q => q.le0B
  | PyFloat.inf => false
  | PyFloat.neginf => true
  | PyFloat.nan => false

/-- Python `f != 0` on a float (true for nan and the infinities). -/
def PyFloat.neZero : PyFloat → Bool
  | PyFloat.finite q => q.neZeroB
  | _ => true

/-- Python float multiplication.  Finite values multiply exactly (see the
header note); the special values follow IEEE rules. -/
def PyFloat.mul : PyFloat → PyFloat → PyFloat
  | PyFloat.nan, _ => PyFloat.nan
  | _, PyFloat.nan => PyFloat.nan
  | PyFloat.finite a, PyFloat.finite b => PyFloat.finite (a.mul b)
  | PyFloat.inf, PyFloat.inf => PyFloat.inf
  | PyFloat.inf, PyFloat.neginf => PyFloat.neginf
  | PyFloat.neginf, PyFloat.inf => PyFloat.neginf
  | PyFloat.neginf, PyFloat.neginf => PyFloat.inf
  | PyFloat.inf, PyFloat.finite b =>
      if b.posB then PyFloat.inf else if b.negB then PyFloat.neginf else PyFloat.nan
  | PyFloat.finite a, PyFloat.inf =>
      if a.posB then PyFloat.inf else if a.negB then PyFloat.neginf else PyFloat.nan
  | PyFloat.neginf, PyFloat.finite b =>
      if b.posB then PyFloat.neginf else if b.negB then PyFloat.inf else PyFloat.nan
  | PyFloat.finite a, PyFloat.neginf =>
      if a.posB then PyFloat.neginf else if a.negB then PyFloat.inf else PyFloat.nan

/-- Python float division.  Every division site in the source is guarded by
a strict-positivity check plus an explicit `!= 0` check on the divisor, so
a finite zero divisor (which would raise ZeroDivisionError) is unreachable.
Finite values divide exactly (see the header note); the special values
follow IEEE rules. -/
def PyFloat.div : PyFloat → PyFloat → PyFloat
  | PyFloat.nan, _ => PyFloat.nan
  | _, PyFloat.nan => PyFloat.nan
  | PyFloat.finite a, PyFloat.finite b => PyFloat.finite (a.div b)
  | PyFloat.finite _, PyFloat.inf => PyFloat.finite (Frac.ofInt 0)
  | PyFloat.finite _, PyFloat.neginf => PyFloat.finite (Frac.ofInt 0)
  | PyFloat.inf, PyFloat.finite b => if b.negB then PyFloat.neginf else PyFloat.inf
  | PyFloat.neginf, PyFloat.finite b => if b.negB then PyFloat.inf else PyFloat.neginf
  | PyFloat.inf, PyFloat.inf => PyFloat.nan
  | PyFloat.inf, PyFloat.neginf => PyFloat.nan
  | PyFloat.neginf, PyFloat.inf => PyFloat.nan
  | PyFloat.neginf, PyFloat.neginf => PyFloat.nan

/-- Python `int(math.ceil(f))`: the ceiling of a finite float; raises
OverflowError on an infinity and ValueError on nan. -/
def PyFloat.ceilInt : PyFloat → Except Unit ℤ
  | PyFloat.finite q => Except.ok q.ceil
  | _ => Except.error ()

/-- `_is_valid_positive_number`: coercion succeeds and the result is
strictly positive. -/
def isValidPositiveNumber (v : Value) : Bool :=
  match toNumber v with
  | some f => f.pos
  | Option.none => false

/-- Positivity of an already coerced `Optional[float]` local.  In the
source this is `_is_valid_positive_number` applied to such a local, and
`_to_number` is the identity on floats, so the two agree. -/
def optPos : Option PyFloat → Bool
  | some f => f.pos
  | Option.none => false

/-- Python `x != 0` on an `Optional[float]` local (None compares unequal). -/
def optNeZero : Option PyFloat → Bool
  | some f => f.neZero
  | Option.none => true

/-- Multiplication of two coerced locals.  Only evaluated under guards that
force both operands to be present; the nan default is unreachable there. -/
def optMul (a b : Option PyFloat) : PyFloat :=
  (a.getD PyFloat.nan).mul (b.getD PyFloat.nan)

/-- Division of two coerced locals.  Only evaluated under guards that force
both operands to be present; the nan default is unreachable there. -/
def optDiv (a b : Option PyFloat) : PyFloat :=
  (a.getD PyFloat.nan).div (b.getD PyFloat.nan)

/-- `_ceil_int`: coerce, return None when absent or non-positive, otherwise
`int(math.ceil(v))` (which raises on an infinity or nan). -/
def ceilInt (v : Value) : Except Unit (Option ℤ) :=
  match toNumber v with
  | Option.none => Except.ok Option.none
  | some f => if f.le0 then Except.ok Option.none else (f.ceilInt).map some

/-- The six CanonicalRow fields the engine reads or writes.  All other
fields of the record are passed through untouched by every function of the
module and are therefore omitted. -/
structure Row where
  piece_per_case : Value := Value.none
  case_per_pallet : Value := Value.none
  pieces_per_pallet : Value := Value.none
  availability_pieces : Value := Value.none
  availability_cartons : Value := Value.none
  availability_pallets : Value := Value.none
deriving DecidableEq

/-- Decidable equality of exception-carrying results, used to evaluate the
engine on concrete records. -/
instance exceptDecEq {ε α : Type} [DecidableEq ε] [DecidableEq α] :
    DecidableEq (Except ε α) := fun a b =>
  match a, b with
  | Except.ok x, Except.ok y => decidable_of_iff (x = y) (by simp)
  | Except.error e, Except.error f => decidable_of_iff (e = f) (by simp)
  | Except.ok _, Except.error _ => isFalse (by simp)
  | Except.error _, Except.ok _ => isFalse (by simp)

/-- One field of the `_finalize_availability_ints` loop body: replace the
value by its positive ceiling when possible, keep it otherwise, then force
it to None when it does not coerce to a number. -/
def finalizeField (v : Value) : Except Unit Value := do
  let vi ← ceilInt v
  let v1 := match vi with
    | some n => Value.int n
    | Option.none => v
  pure (if (toNumber v1).isNone then Value.none else v1)

/-- `_finalize_availability_ints`: apply `finalizeField` to the three
availability fields (in the tuple order of the source loop). -/
def finalizeAvailabilityInts (r : Row) : Except Unit Row := do
  let p ← finalizeField r.availability_pieces
  let c ← finalizeField r.availability_cartons
  let l ← finalizeField r.availability_pallets
  pure { r with availability_pieces := p, availability_cartons := c,
                availability_pallets := l }

/-- One field of the `apply_double_stackable` loop body: multiply by two
when the value coerces to a strictly positive float. -/
def doubleField (v : Value) : Value :=
  match toNumber v with
  | some f => if f.pos then Value.float (f.mul (PyFloat.finite (Frac.ofInt 2))) else v
  | Option.none => v

/-- `apply_double_stackable`: double every valid positive availability
value, then force integer availability fields. -/
def applyDoubleStackable (r : Row) : Except Unit Row :=
  finalizeAvailabilityInts { r with
    availability_pieces := doubleField r.availability_pieces,
    availability_cartons := doubleField r.availability_cartons,
    availability_pallets := doubleField r.availability_pallets }

/-- First triad rule: A and B imply C.  `a` and `b` are the coerced values
of the two source fields, read before any rule runs; under the positivity
guards they are present, so `optMul a b` is exactly the product `a * b` of
the source. -/
def triadStepC (r : Row) (a b : Option PyFloat) : Row :=
  if optPos a = true ∧ optPos b = true ∧ r.pieces_per_pallet = Value.none then
    { r with pieces_per_pallet := Value.float (optMul a b) }
  else r

/-- Second triad rule: A and C imply B, with the redundant `a != 0` guard
of the source. -/
def triadStepB (r : Row) (a c : Option PyFloat) : Row :=
  if optPos a = true ∧ optPos c = true ∧ r.case_per_pallet = Value.none ∧
      optNeZero a = true then
    { r with case_per_pallet := Value.float (optDiv c a) }
  else r

/-- Third triad rule: B and C imply A, with the redundant `b != 0` guard
of the source. -/
def triadStepA (r : Row) (b c : Option PyFloat) : Row :=
  if optPos b = true ∧ optPos c = true ∧ r.piece_per_case = Value.none ∧
      optNeZero b = true then
    { r with piece_per_case := Value.float (optDiv c b) }
  else r

/-- `complete_packaging_triad`: the three two-of-three rules in source
order, each reading the coercions taken at entry and the current row for
its absence check. -/
def completePackagingTriad (r : Row) : Row :=
  let a := toNumber r.piece_per_case
  let b := toNumber r.case_per_pallet
  let c := toNumber r.pieces_per_pallet
  triadStepA (triadStepB (triadStepC r a b) a c) b c

/-- Forward fill of cartons from pieces: only when cartons is absent and
piece_per_case is a valid positive (and non-zero) divisor. -/
def fwdCartons (r : Row) (pieces ppc : Option PyFloat) : Except Unit Row :=
  if r.availability_cartons = Value.none ∧ optPos ppc ∧ optNeZero ppc then do
    let n ← (optDiv pieces ppc).ceilInt
    pure { r with availability_cartons := Value.int n }
  else pure r

/-- Forward fill of pallets from pieces: only when pallets is absent and
pieces_per_pallet is a valid positive (and non-zero) divisor. -/
def fwdPallets (r : Row) (pieces ppp : Option PyFloat) : Except Unit Row :=
  if r.availability_pallets = Value.none ∧ optPos ppp ∧ optNeZero ppp then do
    let n ← (optDiv pieces ppp).ceilInt
    pure { r with availability_pallets := Value.int n }
  else pure r

/-- The forward (and cross-fill) stage: when `pieces` is a valid positive
number, fill absent cartons and pallets by rounded-up division. -/
def forwardFill (r : Row) (pieces ppc ppp : Option PyFloat) : Except Unit Row :=
  if optPos pieces then do
    let r1 ← fwdCartons r pieces ppc
    fwdPallets r1 pieces ppp
  else pure r

/-- The reverse stage: only when the pieces field is absent, derive it from
cartons (preferred) or else from pallets, by rounded-up multiplication.
`cartons` and `pallets` are the coercions taken at entry of
`complete_availability`. -/
def reverseFill (r : Row) (cartons pallets ppc ppp : Option PyFloat) :
    Except Unit Row :=
  if r.availability_pieces = Value.none then
    if optPos cartons ∧ optPos ppc then do
      let n ← (optMul cartons ppc).ceilInt
      pure { r with availability_pieces := Value.int n }
    else if optPos pallets ∧ optPos ppp then do
      let n ← (optMul pallets ppp).ceilInt
      pure { r with availability_pieces := Value.int n }
    else pure r
  else pure r

/-- The three derivation stages of `complete_availability` without the
final integer enforcement: forward, reverse, cross-fill (the cross-fill
re-reads the possibly new pieces value, all other coercions are the entry
ones). -/
def availabilityCore (r : Row) : Except Unit Row := do
  let pieces := toNumber r.availability_pieces
  let cartons := toNumber r.availability_cartons
  let pallets := toNumber r.availability_pallets
  let ppc := toNumber r.piece_per_case
  let ppp := toNumber r.pieces_per_pallet
  let r1 ← forwardFill r pieces ppc ppp
  let r2 ← reverseFill r1 cartons pallets ppc ppp
  forwardFill r2 (toNumber r2.availability_pieces) ppc ppp

/-- `complete_availability`: the three derivation stages followed by
`_finalize_availability_ints`. -/
def completeAvailability (r : Row) : Except Unit Row := do
  let r3 ← availabilityCore r
  finalizeAvailabilityInts r3

/-- Python `==` between two field values: numeric values (bool counts as
0/1, int and float compare by value, nan is unequal to itself) or
same-type structural equality; values of unrelated types compare unequal. -/
def numView : Value → Option PyFloat
  | Value.int n => some (PyFloat.finite (Frac.ofInt n))
  | Value.float f => some f
  | Value.bool b => some (PyFloat.finite (Frac.ofInt (if b then 1 else 0)))
  | _ => Option.none

/-- Python `==` on two floats: nan compares unequal to everything. -/
def PyFloat.eqb : PyFloat → PyFloat → Bool
  | PyFloat.finite a, PyFloat.finite b => a.eqB b
  | PyFloat.inf, PyFloat.inf => true
  | PyFloat.neginf, PyFloat.neginf => true
  | _, _ => false

/-- Python `==` on two field values. -/
def pyEq (v w : Value) : Bool :=
  match numView v, numView w with
  | some f, some g => f.eqb g
  | _, _ =>
    match v, w with
    | Value.none, Value.none => true
    | Value.str s, Value.str t => decide (s = t)
    | _, _ => false

/-- Python `dict(row) == before` on the six engine fields.  All other
fields of the record are never written, so they compare equal and are
omitted (a non-engine field holding nan would only suppress early exit of
the loop, which does not change the returned record). -/
def rowEq (x y : Row) : Bool :=
  pyEq x.piece_per_case y.piece_per_case &&
  pyEq x.case_per_pallet y.case_per_pallet &&
  pyEq x.pieces_per_pallet y.pieces_per_pallet &&
  pyEq x.availability_pieces y.availability_pieces &&
  pyEq x.availability_cartons y.availability_cartons &&
  pyEq x.availability_pallets y.availability_pallets

/-- One iteration of the `apply_packaging_math` loop body. -/
def enginePass (r : Row) : Except Unit Row :=
  completeAvailability (completePackagingTriad r)

/-- The iteration structure of `apply_packaging_math`: run up to `n`
passes, stopping early when the snapshot comparison reports no change. -/
def engineLoop : ℕ → Row → Except Unit Row
  | 0, r => Except.ok r
  | n + 1, r => do
      let y ← enginePass r
      if rowEq y r then pure y else engineLoop n y

/-- `apply_packaging_math` with its default iteration cap of 3. -/
def applyPackagingMath (r : Row) (maxIterations : ℕ := 3) : Except Unit Row :=
  engineLoop maxIterations r

/-- Modelled from the spec: one iteration of the reference driver of
section 4.5, which repeats triad completion and availability derivation
with no per-pass integer enforcement. -/
def referencePass (r : Row) : Except Unit Row :=
  availabilityCore (completePackagingTriad r)

/-- Modelled from the spec: the reference driver loop of section 4.5, with
the same snapshot comparison and early stop as the engine. -/
def referenceLoop : ℕ → Row → Except Unit Row
  | 0, r => Except.ok r
  | n + 1, r => do
      let y ← referencePass r
      if rowEq y r then pure y else referenceLoop n y

/-- Modelled from the spec: the finalize-once-after-the-loop reference
program of section 4.5 against which claim C6 compares the engine. -/
def referenceEngine (r : Row) (maxIterations : ℕ := 3) : Except Unit Row := do
  let y ← referenceLoop maxIterations r
  finalizeAvailabilityInts y

/-- Modelled from the spec: the caller (the processing pipeline, whose
module is not part of the sources here) applies the double-stackable
adjustment once, before the fixpoint loop runs (section 4.4). -/
def processRecord (r : Row) (doubleStackable : Bool) : Except Unit Row := do
  let r1 ← if doubleStackable then applyDoubleStackable r else pure r
  applyPackagingMath r1

/-- The output contract claimed for availability fields: absent or a
positive integer. -/
def isAbsentOrPosInt : Value → Bool
  | Value.none => true
  | Value.int n => decide (1 ≤ n)
  | _ => false

/-- The rounded-up integer of a value that coerces to a finite number; used
to state how the engine normalizes an already populated availability field
(a value that does not coerce to a finite number is returned unchanged, a
case that is unreachable under the hypotheses of the theorems using it). -/
def ceilIfPos (v : Value) : Value :=
  match toNumber v with
  | some (PyFloat.finite f) => Value.int f.ceil
  | _ => v

/-- A coerced value is tame when it is absent or finite: the engine only
raises, or writes the integer zero, when an infinite or nan float is
involved (claim C3 covers those). -/
def tameOpt : Option PyFloat → Bool
  | Option.none => true
  | some (PyFloat.finite _) => true
  | some PyFloat.inf => false
  | some PyFloat.neginf => false
  | some PyFloat.nan => false

/-- A field value is tame when its coercion is tame. -/
def tameVal (v : Value) : Bool := tameOpt (toNumber v)

/-- A record is tame when all six engine fields are tame. -/
def tameRow (r : Row) : Bool :=
  tameVal r.piece_per_case && tameVal r.case_per_pallet &&
  tameVal r.pieces_per_pallet && tameVal r.availability_pieces &&
  tameVal r.availability_cartons && tameVal r.availability_pallets

/-- The value a cross-fill writes into pallets when pieces was first
reverse-derived from cartons: the rounded-up product is computed, then the
rounded-up quotient of that integer by pieces_per_pallet. -/
def crossPalletsValue (cartons ppc ppp : Value) : Except Unit Value := do
  let n ← (optMul (toNumber cartons) (toNumber ppc)).ceilInt
  let m ← (optDiv (some (PyFloat.finite (Frac.ofInt n))) (toNumber ppp)).ceilInt
  pure (Value.int m)

/-- Scenario B input: availability_pieces 130 and piece_per_case 12. -/
def rowB : Row :=
  { availability_pieces := Value.int 130, piece_per_case := Value.int 12 }

/-- Scenario B output: cartons filled with the rounded-up quotient 11. -/
def outB : Row :=
  { availability_pieces := Value.int 130, piece_per_case := Value.int 12,
    availability_cartons := Value.int 11 }

/-- A fully populated record with valid positive values in every field:
the input of the authority witness. -/
def rowC2w : Row :=
  { piece_per_case := Value.int 12, case_per_pallet := Value.int 10,
    pieces_per_pallet := Value.int 120,
    availability_pieces := Value.str "10,5",
    availability_cartons := Value.int 3,
    availability_pallets := Value.float (PyFloat.finite ⟨25, 9⟩) }

/-- The engine output for `rowC2w`: triad untouched, availability fields
rounded up to integers. -/
def outC2w : Row :=
  { piece_per_case := Value.int 12, case_per_pallet := Value.int 10,
    pieces_per_pallet := Value.int 120,
    availability_pieces := Value.int 11,
    availability_cartons := Value.int 3,
    availability_pallets := Value.int 3 }

/-- The guard of the first triad rule (A and B imply C), as the source
evaluates it: both sources coerce to positive numbers and the target is
absent.  The additional `!= 0` test of the source is implied by
positivity. -/
def triadGC (r : Row) : Prop :=
  optPos (toNumber r.piece_per_case) = true ∧
  optPos (toNumber r.case_per_pallet) = true ∧
  r.pieces_per_pallet = Value.none

/-- The guard of the second triad rule (A and C imply B). -/
def triadGB (r : Row) : Prop :=
  optPos (toNumber r.piece_per_case) = true ∧
  optPos (toNumber r.pieces_per_pallet) = true ∧
  r.case_per_pallet = Value.none

/-- The guard of the third triad rule (B and C imply A). -/
def triadGA (r : Row) : Prop :=
  optPos (toNumber r.case_per_pallet) = true ∧
  optPos (toNumber r.pieces_per_pallet) = true ∧
  r.piece_per_case = Value.none

/-- Quiescence of the availability stages on a record: every forward guard
finds its target filled or its sources invalid, and when pieces is absent
both reverse sources are unusable.  Under these conditions the three
stages of `complete_availability` write nothing and raise nothing. -/
def coreQuiescent (z : Row) : Prop :=
  (optPos (toNumber z.availability_pieces) = true →
    optPos (toNumber z.piece_per_case) = true →
    z.availability_cartons ≠ Value.none) ∧
  (optPos (toNumber z.availability_pieces) = true →
    optPos (toNumber z.pieces_per_pallet) = true →
    z.availability_pallets ≠ Value.none) ∧
  (z.availability_pieces = Value.none →
    ¬(optPos (toNumber z.availability_cartons) = true ∧
      optPos (toNumber z.piece_per_case) = true)) ∧
  (z.availability_pieces = Value.none →
    ¬(optPos (toNumber z.availability_pallets) = true ∧
      optPos (toNumber z.pieces_per_pallet) = true))

/-- A field value that is absent or coerces to a number: the shape every
availability field has after one finalization, and the shape under which
per-pass finalization cannot unlock new derivations. -/
def numericOrAbsent (v : Value) : Bool :=
  decide (v = Value.none) || (toNumber v).isSome

/-- All three availability fields numeric-or-absent. -/
def availOk (r : Row) : Bool :=
  numericOrAbsent r.availability_pieces &&
  numericOrAbsent r.availability_cartons &&
  numericOrAbsent r.availability_pallets

section Helpers

theorem Frac.den_pos (f : Frac) : 0 < f.den := by
  unfold Frac.den; omega

/-- Bridge: the positivity test is positivity of the rational value. -/
theorem Frac.posB_iff (f : Frac) : f.posB = true ↔ 0 < f.val := by
  have hd : (0 : ℚ) < (f.den : ℚ) := by exact_mod_cast f.den_pos
  unfold Frac.posB Frac.val
  rw [decide_eq_true_eq]
  constructor
  · intro h
    exact div_pos (by exact_mod_cast h) hd
  · intro h
    rcases div_pos_iff.mp h with ⟨h1, _⟩ | ⟨_, h2⟩
    · exact_mod_cast h1
    · exact absurd hd (not_lt.mpr (le_of_lt h2))

theorem Frac.le0B_eq (f : Frac) : f.le0B = !f.posB := by
  unfold Frac.le0B Frac.posB
  rcases le_or_lt f.num 0 with h | h
  · simp [h, not_lt.mpr h]
  · simp [h, not_le.mpr h]

/-- Bridge: the product computes the exact rational product. -/
theorem Frac.val_mul (a b : Frac) : (a.mul b).val = a.val * b.val := by
  have hden : ((a.mul b).den : ℚ) = (a.den : ℚ) * (b.den : ℚ) := by
    unfold Frac.mul Frac.den
    push_cast
    ring
  unfold Frac.val
  rw [hden]
  unfold Frac.mul
  push_cast
  rw [div_mul_div_comm]

theorem Frac.mkPos_den {d : ℤ} (h : 0 < d) (n : ℤ) : (Frac.mkPos n d).den = d := by
  unfold Frac.mkPos Frac.den
  dsimp only
  omega

/-- Bridge: the quotient computes the exact rational quotient (the divisor
is nonzero at every division site of the source). -/
theorem Frac.val_div (a b : Frac) (h : b.num ≠ 0) :
    (a.div b).val = a.val / b.val := by
  have hda : (a.den : ℚ) ≠ 0 := by
    have := a.den_pos; intro hc; exact absurd hc (by exact_mod_cast ne_of_gt this)
  have hdb : (b.den : ℚ) ≠ 0 := by
    have := b.den_pos; intro hc; exact absurd hc (by exact_mod_cast ne_of_gt this)
  rcases lt_trichotomy b.num 0 with hn | hn | hn
  · have hpos : 0 < a.den * (-b.num) := mul_pos a.den_pos (by omega)
    have hnum : (Frac.div a b).num = -(a.num * b.den) := by
      unfold Frac.div
      rw [if_neg (by omega), if_pos hn]
      rfl
    have hden2 : (Frac.div a b).den = a.den * (-b.num) := by
      unfold Frac.div
      rw [if_neg (by omega), if_pos hn]
      exact Frac.mkPos_den hpos _
    have hbn : ((b.num : ℚ)) ≠ 0 := by exact_mod_cast h
    unfold Frac.val
    rw [hnum, hden2]
    field_simp
  · exact absurd hn h
  · have hpos : 0 < a.den * b.num := mul_pos a.den_pos hn
    have hnum : (Frac.div a b).num = a.num * b.den := by
      unfold Frac.div
      rw [if_pos hn]
      rfl
    have hden2 : (Frac.div a b).den = a.den * b.num := by
      unfold Frac.div
      rw [if_pos hn]
      exact Frac.mkPos_den hpos _
    have hbn : ((b.num : ℚ)) ≠ 0 := by exact_mod_cast h
    unfold Frac.val
    rw [hnum, hden2]
    field_simp

/-- Bridge: the computed integer ceiling is the ceiling of the rational
value. -/
theorem Frac.ceil_val (f : Frac) : f.ceil = ⌈f.val⌉ := by
  have h2 : ⌈f.val⌉ = -⌊((-f.num : ℤ) : ℚ) / ((f.pden + 1 : ℕ) : ℚ)⌋ := by
    rw [← Int.ceil_neg]
    congr 1
    unfold Frac.val Frac.den
    push_cast
    ring_nf
  have h3 : (-f.num).fdiv f.den = (-f.num) / ((f.pden + 1 : ℕ) : ℤ) := by
    rw [Int.fdiv_eq_ediv _ (le_of_lt f.den_pos)]
    have hd : ((f.pden + 1 : ℕ) : ℤ) = f.den := by
      unfold Frac.den
      push_cast
      ring
    rw [hd]
  rw [h2, Rat.floor_intCast_div_natCast]
  unfold Frac.ceil
  rw [h3]

/-- Bridge: the Python equality test is equality of the rational values. -/
theorem Frac.eqB_iff (a b : Frac) : a.eqB b = true ↔ a.val = b.val := by
  have hda : ((a.den : ℤ) : ℚ) ≠ 0 := by
    have := a.den_pos
    exact_mod_cast ne_of_gt this
  have hdb : ((b.den : ℤ) : ℚ) ≠ 0 := by
    have := b.den_pos
    exact_mod_cast ne_of_gt this
  unfold Frac.eqB Frac.val
  rw [decide_eq_true_eq, div_eq_div_iff hda hdb]
  constructor
  · intro h
    exact_mod_cast h
  · intro h
    exact_mod_cast h

theorem Frac.mul_posB {a b : Frac} (ha : a.posB = true) (hb : b.posB = true) :
    (a.mul b).posB = true := by
  unfold Frac.posB at *
  rw [decide_eq_true_eq] at *
  exact mul_pos ha hb

theorem Frac.div_posB {a b : Frac} (ha : a.posB = true) (hb : b.posB = true) :
    (a.div b).posB = true := by
  unfold Frac.posB at *
  rw [decide_eq_true_eq] at *
  unfold Frac.div
  rw [if_pos hb]
  unfold Frac.mkPos
  dsimp only
  exact mul_pos ha b.den_pos

/-- The ceiling of a positive value is a positive integer. -/
theorem Frac.ceil_pos {f : Frac} (h : f.posB = true) : 1 ≤ f.ceil := by
  rw [Frac.ceil_val]
  have := (Frac.posB_iff f).mp h
  exact Int.ceil_pos.mpr this

theorem Frac.ceil_ofInt (n : ℤ) : (Frac.ofInt n).ceil = n := by
  unfold Frac.ceil Frac.ofInt Frac.den
  simp

theorem Frac.posB_ofInt {n : ℤ} (h : 0 < n) : (Frac.ofInt n).posB = true := by
  unfold Frac.posB Frac.ofInt
  rw [decide_eq_true_eq]
  exact h

@[simp] theorem optPos_some (f : PyFloat) : optPos (some f) = f.pos := rfl

@[simp] theorem optPos_nothing : optPos Option.none = false := rfl

@[simp] theorem optMul_some (f g : PyFloat) : optMul (some f) (some g) = f.mul g := rfl

@[simp] theorem optDiv_some (f g : PyFloat) : optDiv (some f) (some g) = f.div g := rfl

@[simp] theorem exceptBind_ok {ε α β : Type} (a : α) (f : α → Except ε β) :
    (Except.ok a >>= f) = f a := rfl

@[simp] theorem exceptBind_error {ε α β : Type} (e : ε) (f : α → Except ε β) :
    ((Except.error e : Except ε α) >>= f) = Except.error e := rfl

@[simp] theorem exceptPure {ε α : Type} (a : α) :
    (pure a : Except ε α) = Except.ok a := rfl

theorem isValidPositiveNumber_eq (v : Value) :
    isValidPositiveNumber v = optPos (toNumber v) := by
  unfold isValidPositiveNumber
  cases toNumber v <;> rfl

/-- A value that coerces to a positive number is not absent. -/
theorem ne_none_of_optPos {v : Value} (h : optPos (toNumber v) = true) :
    v ≠ Value.none := by
  intro hv
  rw [hv] at h
  simp [toNumber] at h

/-- A strictly positive float is nonzero under the Python `!= 0` test. -/
theorem PyFloat.neZero_of_pos {f : PyFloat} (h : f.pos = true) : f.neZero = true := by
  cases f with
  | finite q =>
      simp only [PyFloat.pos, Frac.posB, decide_eq_true_eq] at h
      simp only [PyFloat.neZero, Frac.neZeroB, decide_eq_true_eq]
      exact ne_of_gt h
  | inf => rfl
  | neginf => rfl
  | nan => rfl

/-- A coerced local that passes the positivity guard also passes the
`!= 0` guard. -/
theorem optNeZero_of_optPos {a : Option PyFloat} (h : optPos a = true) :
    optNeZero a = true := by
  cases a with
  | none => rfl
  | some f => exact PyFloat.neZero_of_pos h

theorem triadStepC_write {r : Row} {a b : Option PyFloat}
    (h1 : optPos a = true) (h2 : optPos b = true)
    (h3 : r.pieces_per_pallet = Value.none) :
    triadStepC r a b = { r with pieces_per_pallet := Value.float (optMul a b) } := by
  simp [triadStepC, h1, h2, h3]

theorem triadStepC_skip {r : Row} (a b : Option PyFloat)
    (h : r.pieces_per_pallet ≠ Value.none) :
    triadStepC r a b = r := by
  unfold triadStepC
  split_ifs with hc
  · exact absurd hc.2.2 h
  · rfl

theorem triadStepC_keeps (r : Row) (a b : Option PyFloat) :
    (triadStepC r a b).piece_per_case = r.piece_per_case ∧
    (triadStepC r a b).case_per_pallet = r.case_per_pallet ∧
    (triadStepC r a b).availability_pieces = r.availability_pieces ∧
    (triadStepC r a b).availability_cartons = r.availability_cartons ∧
    (triadStepC r a b).availability_pallets = r.availability_pallets := by
  unfold triadStepC
  split_ifs <;> exact ⟨rfl, rfl, rfl, rfl, rfl⟩

theorem triadStepB_write {r : Row} {a c : Option PyFloat}
    (h1 : optPos a = true) (h2 : optPos c = true)
    (h3 : r.case_per_pallet = Value.none) :
    triadStepB r a c = { r with case_per_pallet := Value.float (optDiv c a) } := by
  simp [triadStepB, h1, h2, h3, optNeZero_of_optPos h1]

theorem triadStepB_skip {r : Row} (a c : Option PyFloat)
    (h : r.case_per_pallet ≠ Value.none) :
    triadStepB r a c = r := by
  unfold triadStepB
  split_ifs with hc
  · exact absurd hc.2.2.1 h
  · rfl

theorem triadStepB_keeps (r : Row) (a c : Option PyFloat) :
    (triadStepB r a c).piece_per_case = r.piece_per_case ∧
    (triadStepB r a c).pieces_per_pallet = r.pieces_per_pallet ∧
    (triadStepB r a c).availability_pieces = r.availability_pieces ∧
    (triadStepB r a c).availability_cartons = r.availability_cartons ∧
    (triadStepB r a c).availability_pallets = r.availability_pallets := by
  unfold triadStepB
  split_ifs <;> exact ⟨rfl, rfl, rfl, rfl, rfl⟩

theorem triadStepA_write {r : Row} {b c : Option PyFloat}
    (h1 : optPos b = true) (h2 : optPos c = true)
    (h3 : r.piece_per_case = Value.none) :
    triadStepA r b c = { r with piece_per_case := Value.float (optDiv c b) } := by
  simp [triadStepA, h1, h2, h3, optNeZero_of_optPos h1]

theorem triadStepA_skip {r : Row} (b c : Option PyFloat)
    (h : r.piece_per_case ≠ Value.none) :
    triadStepA r b c = r := by
  unfold triadStepA
  split_ifs with hc
  · exact absurd hc.2.2.1 h
  · rfl

theorem triadStepA_keeps (r : Row) (b c : Option PyFloat) :
    (triadStepA r b c).case_per_pallet = r.case_per_pallet ∧
    (triadStepA r b c).pieces_per_pallet = r.pieces_per_pallet ∧
    (triadStepA r b c).availability_pieces = r.availability_pieces ∧
    (triadStepA r b c).availability_cartons = r.availability_cartons ∧
    (triadStepA r b c).availability_pallets = r.availability_pallets := by
  unfold triadStepA
  split_ifs <;> exact ⟨rfl, rfl, rfl, rfl, rfl⟩

theorem toNumber_ne_none {v : Value} {f : PyFloat} (h : toNumber v = some f) :
    v ≠ Value.none := by
  intro hv
  rw [hv] at h
  simp [toNumber] at h

@[simp] theorem toNumber_int (n : ℤ) :
    toNumber (Value.int n) = some (PyFloat.finite (Frac.ofInt n)) := rfl

@[simp] theorem toNumber_nothing : toNumber Value.none = Option.none := rfl

@[simp] theorem toNumber_boolean (b : Bool) :
    toNumber (Value.bool b) = Option.none := rfl

@[simp] theorem toNumber_pyfloat (f : PyFloat) :
    toNumber (Value.float f) = some f := rfl

theorem finalizeField_none : finalizeField Value.none = Except.ok Value.none := by
  rfl

theorem finalizeField_nonnum {v : Value} (h : toNumber v = Option.none) :
    finalizeField v = Except.ok Value.none := by
  simp [finalizeField, ceilInt, h]

theorem finalizeField_pos {v : Value} {f : Frac}
    (h : toNumber v = some (PyFloat.finite f)) (hp : f.posB = true) :
    finalizeField v = Except.ok (Value.int f.ceil) := by
  have hle : f.le0B = false := by rw [Frac.le0B_eq, hp]; rfl
  simp [finalizeField, ceilInt, h, PyFloat.le0, hle, PyFloat.ceilInt, Except.map]

theorem finalizeField_nonpos {v : Value} {f : Frac}
    (h : toNumber v = some (PyFloat.finite f)) (hp : f.le0B = true) :
    finalizeField v = Except.ok v := by
  simp [finalizeField, ceilInt, h, PyFloat.le0, hp, Option.isNone]

theorem finalizeField_neginf {v : Value}
    (h : toNumber v = some PyFloat.neginf) :
    finalizeField v = Except.ok v := by
  simp [finalizeField, ceilInt, h, PyFloat.le0, Option.isNone]

theorem finalizeField_inf {v : Value}
    (h : toNumber v = some PyFloat.inf) :
    finalizeField v = Except.error () := by
  simp [finalizeField, ceilInt, h, PyFloat.le0, PyFloat.ceilInt, Except.map]

theorem finalizeField_nan {v : Value}
    (h : toNumber v = some PyFloat.nan) :
    finalizeField v = Except.error () := by
  simp [finalizeField, ceilInt, h, PyFloat.le0, PyFloat.ceilInt, Except.map]

theorem finalizeField_int_pos {k : ℤ} (h : 1 ≤ k) :
    finalizeField (Value.int k) = Except.ok (Value.int k) := by
  have := finalizeField_pos (v := Value.int k) (f := Frac.ofInt k) rfl
    (Frac.posB_ofInt (by omega))
  rw [Frac.ceil_ofInt] at this
  exact this

/-- Every possible outcome of `finalizeField`: cleared junk, positive
ceiling, or the value kept unchanged. -/
theorem finalizeField_cases {v w : Value} (h : finalizeField v = Except.ok w) :
    (toNumber v = Option.none ∧ w = Value.none) ∨
    (∃ f : Frac, toNumber v = some (PyFloat.finite f) ∧ f.posB = true ∧
      w = Value.int f.ceil) ∨
    ((toNumber v = some PyFloat.neginf ∨
      ∃ f : Frac, toNumber v = some (PyFloat.finite f) ∧ f.le0B = true) ∧ w = v) := by
  cases hn : toNumber v with
  | none =>
    rw [finalizeField_nonnum hn] at h
    injection h with h
    exact Or.inl ⟨rfl, h.symm⟩
  | some f =>
    cases f with
    | finite q =>
      by_cases hq : q.posB = true
      · rw [finalizeField_pos hn hq] at h
        injection h with h
        exact Or.inr (Or.inl ⟨q, rfl, hq, h.symm⟩)
      · have hle : q.le0B = true := by
          rw [Frac.le0B_eq]
          simp [hq]
        rw [finalizeField_nonpos hn hle] at h
        injection h with h
        exact Or.inr (Or.inr ⟨Or.inr ⟨q, rfl, hle⟩, h.symm⟩)
    | inf => rw [finalizeField_inf hn] at h; cases h
    | neginf =>
      rw [finalizeField_neginf hn] at h
      injection h with h
      exact Or.inr (Or.inr ⟨Or.inl rfl, h.symm⟩)
    | nan => rw [finalizeField_nan hn] at h; cases h

/-- Finalization is idempotent on its own successful outputs. -/
theorem finalizeField_idem {v w : Value} (h : finalizeField v = Except.ok w) :
    finalizeField w = Except.ok w := by
  rcases finalizeField_cases h with ⟨_, hw⟩ | ⟨f, _, hp, hw⟩ | ⟨hk, hw⟩
  · rw [hw]; exact finalizeField_none
  · rw [hw]; exact finalizeField_int_pos (Frac.ceil_pos hp)
  · rw [hw]
    rcases hk with hk | ⟨f, hf, hle⟩
    · exact finalizeField_neginf hk
    · exact finalizeField_nonpos hf hle

theorem finalizeRow_eq {r : Row} {p c l : Value}
    (hp : finalizeField r.availability_pieces = Except.ok p)
    (hc : finalizeField r.availability_cartons = Except.ok c)
    (hl : finalizeField r.availability_pallets = Except.ok l) :
    finalizeAvailabilityInts r = Except.ok
      { r with availability_pieces := p, availability_cartons := c,
               availability_pallets := l } := by
  simp [finalizeAvailabilityInts, hp, hc, hl]

theorem finalizeRow_ok {r y : Row}
    (h : finalizeAvailabilityInts r = Except.ok y) :
    ∃ p c l, finalizeField r.availability_pieces = Except.ok p ∧
      finalizeField r.availability_cartons = Except.ok c ∧
      finalizeField r.availability_pallets = Except.ok l ∧
      y = { r with availability_pieces := p, availability_cartons := c,
                   availability_pallets := l } := by
  unfold finalizeAvailabilityInts at h
  cases hp : finalizeField r.availability_pieces with
  | error e => rw [hp] at h; simp at h
  | ok p =>
    rw [hp] at h
    cases hc : finalizeField r.availability_cartons with
    | error e => rw [hc] at h; simp at h
    | ok c =>
      rw [hc] at h
      cases hl : finalizeField r.availability_pallets with
      | error e => rw [hl] at h; simp at h
      | ok l =>
        rw [hl] at h
        simp at h
        exact ⟨p, c, l, rfl, rfl, rfl, h.symm⟩

theorem fwdCartons_skip_filled {r : Row} (pieces ppc : Option PyFloat)
    (h : r.availability_cartons ≠ Value.none) :
    fwdCartons r pieces ppc = Except.ok r := by
  unfold fwdCartons
  rw [if_neg]
  · rfl
  · intro hc; exact h hc.1

theorem fwdCartons_skip_nodiv {r : Row} (pieces : Option PyFloat)
    {ppc : Option PyFloat} (h : optPos ppc = false) :
    fwdCartons r pieces ppc = Except.ok r := by
  unfold fwdCartons
  rw [if_neg]
  · rfl
  · intro hc; rw [hc.2.1] at h; cases h

theorem fwdCartons_write {r : Row} {pieces ppc : Option PyFloat} {n : ℤ}
    (hc : r.availability_cartons = Value.none) (hp : optPos ppc = true)
    (hceil : (optDiv pieces ppc).ceilInt = Except.ok n) :
    fwdCartons r pieces ppc =
      Except.ok { r with availability_cartons := Value.int n } := by
  unfold fwdCartons
  rw [if_pos ⟨hc, hp, optNeZero_of_optPos hp⟩, hceil]
  rfl

theorem fwdCartons_keeps {r y : Row} {pieces ppc : Option PyFloat}
    (h : fwdCartons r pieces ppc = Except.ok y) :
    y.piece_per_case = r.piece_per_case ∧
    y.case_per_pallet = r.case_per_pallet ∧
    y.pieces_per_pallet = r.pieces_per_pallet ∧
    y.availability_pieces = r.availability_pieces ∧
    y.availability_pallets = r.availability_pallets := by
  unfold fwdCartons at h
  split_ifs at h with hg
  · cases hceil : (optDiv pieces ppc).ceilInt with
    | error e => rw [hceil] at h; simp at h
    | ok n =>
      rw [hceil] at h
      simp at h
      rw [← h]
      exact ⟨rfl, rfl, rfl, rfl, rfl⟩
  · simp at h
    rw [← h]
    exact ⟨rfl, rfl, rfl, rfl, rfl⟩

theorem fwdPallets_skip_filled {r : Row} (pieces ppp : Option PyFloat)
    (h : r.availability_pallets ≠ Value.none) :
    fwdPallets r pieces ppp = Except.ok r := by
  unfold fwdPallets
  rw [if_neg]
  · rfl
  · intro hc; exact h hc.1

theorem fwdPallets_skip_nodiv {r : Row} (pieces : Option PyFloat)
    {ppp : Option PyFloat} (h : optPos ppp = false) :
    fwdPallets r pieces ppp = Except.ok r := by
  unfold fwdPallets
  rw [if_neg]
  · rfl
  · intro hc; rw [hc.2.1] at h; cases h

theorem fwdPallets_write {r : Row} {pieces ppp : Option PyFloat} {n : ℤ}
    (hc : r.availability_pallets = Value.none) (hp : optPos ppp = true)
    (hceil : (optDiv pieces ppp).ceilInt = Except.ok n) :
    fwdPallets r pieces ppp =
      Except.ok { r with availability_pallets := Value.int n } := by
  unfold fwdPallets
  rw [if_pos ⟨hc, hp, optNeZero_of_optPos hp⟩, hceil]
  rfl

theorem fwdPallets_keeps {r y : Row} {pieces ppp : Option PyFloat}
    (h : fwdPallets r pieces ppp = Except.ok y) :
    y.piece_per_case = r.piece_per_case ∧
    y.case_per_pallet = r.case_per_pallet ∧
    y.pieces_per_pallet = r.pieces_per_pallet ∧
    y.availability_pieces = r.availability_pieces ∧
    y.availability_cartons = r.availability_cartons := by
  unfold fwdPallets at h
  split_ifs at h with hg
  · cases hceil : (optDiv pieces ppp).ceilInt with
    | error e => rw [hceil] at h; simp at h
    | ok n =>
      rw [hceil] at h
      simp at h
      rw [← h]
      exact ⟨rfl, rfl, rfl, rfl, rfl⟩
  · simp at h
    rw [← h]
    exact ⟨rfl, rfl, rfl, rfl, rfl⟩

theorem forwardFill_nopieces {r : Row} {pieces : Option PyFloat}
    (ppc ppp : Option PyFloat) (h : optPos pieces = false) :
    forwardFill r pieces ppc ppp = Except.ok r := by
  unfold forwardFill
  rw [if_neg (by simp [h])]
  rfl

theorem forwardFill_run {r : Row} {pieces : Option PyFloat}
    (ppc ppp : Option PyFloat) (h : optPos pieces = true) :
    forwardFill r pieces ppc ppp =
      (do
        let r1 ← fwdCartons r pieces ppc
        fwdPallets r1 pieces ppp) := by
  unfold forwardFill
  rw [if_pos h]

theorem reverseFill_skip {r : Row} (cartons pallets ppc ppp : Option PyFloat)
    (h : r.availability_pieces ≠ Value.none) :
    reverseFill r cartons pallets ppc ppp = Except.ok r := by
  unfold reverseFill
  rw [if_neg h]
  rfl

theorem reverseFill_cartons {r : Row} {cartons ppc : Option PyFloat}
    (pallets ppp : Option PyFloat) {n : ℤ}
    (h0 : r.availability_pieces = Value.none)
    (hc : optPos cartons = true) (hp : optPos ppc = true)
    (hceil : (optMul cartons ppc).ceilInt = Except.ok n) :
    reverseFill r cartons pallets ppc ppp =
      Except.ok { r with availability_pieces := Value.int n } := by
  unfold reverseFill
  rw [if_pos h0, if_pos ⟨hc, hp⟩, hceil]
  rfl

theorem reverseFill_pallets {r : Row} {cartons pallets ppc ppp : Option PyFloat}
    {n : ℤ}
    (h0 : r.availability_pieces = Value.none)
    (h1 : ¬(optPos cartons = true ∧ optPos ppc = true))
    (hl : optPos pallets = true) (hp : optPos ppp = true)
    (hceil : (optMul pallets ppp).ceilInt = Except.ok n) :
    reverseFill r cartons pallets ppc ppp =
      Except.ok { r with availability_pieces := Value.int n } := by
  unfold reverseFill
  rw [if_pos h0, if_neg h1, if_pos ⟨hl, hp⟩, hceil]
  rfl

theorem reverseFill_nosrc {r : Row} {cartons pallets ppc ppp : Option PyFloat}
    (h1 : ¬(optPos cartons = true ∧ optPos ppc = true))
    (h2 : ¬(optPos pallets = true ∧ optPos ppp = true)) :
    reverseFill r cartons pallets ppc ppp = Except.ok r := by
  unfold reverseFill
  by_cases h0 : r.availability_pieces = Value.none
  · rw [if_pos h0, if_neg h1, if_neg h2]
    rfl
  · rw [if_neg h0]
    rfl

theorem reverseFill_keeps {r y : Row} {cartons pallets ppc ppp : Option PyFloat}
    (h : reverseFill r cartons pallets ppc ppp = Except.ok y) :
    y.piece_per_case = r.piece_per_case ∧
    y.case_per_pallet = r.case_per_pallet ∧
    y.pieces_per_pallet = r.pieces_per_pallet ∧
    y.availability_cartons = r.availability_cartons ∧
    y.availability_pallets = r.availability_pallets := by
  unfold reverseFill at h
  split_ifs at h with h0 hg1 hg2
  · cases hceil : (optMul cartons ppc).ceilInt with
    | error e => rw [hceil] at h; simp at h
    | ok n =>
      rw [hceil] at h
      simp at h
      rw [← h]
      exact ⟨rfl, rfl, rfl, rfl, rfl⟩
  · cases hceil : (optMul pallets ppp).ceilInt with
    | error e => rw [hceil] at h; simp at h
    | ok n =>
      rw [hceil] at h
      simp at h
      rw [← h]
      exact ⟨rfl, rfl, rfl, rfl, rfl⟩
  · simp at h
    rw [← h]
    exact ⟨rfl, rfl, rfl, rfl, rfl⟩
  · simp at h
    rw [← h]
    exact ⟨rfl, rfl, rfl, rfl, rfl⟩

theorem fwdCartons_cases {r y : Row} {pieces ppc : Option PyFloat}
    (h : fwdCartons r pieces ppc = Except.ok y) :
    y = r ∨
      (r.availability_cartons = Value.none ∧ optPos ppc = true ∧
        ∃ n, (optDiv pieces ppc).ceilInt = Except.ok n ∧
          y = { r with availability_cartons := Value.int n }) := by
  unfold fwdCartons at h
  split_ifs at h with hg
  · cases hceil : (optDiv pieces ppc).ceilInt with
    | error e => rw [hceil] at h; simp at h
    | ok n =>
      rw [hceil] at h
      simp at h
      exact Or.inr ⟨hg.1, hg.2.1, n, rfl, h.symm⟩
  · simp at h
    exact Or.inl h.symm

theorem fwdPallets_cases {r y : Row} {pieces ppp : Option PyFloat}
    (h : fwdPallets r pieces ppp = Except.ok y) :
    y = r ∨
      (r.availability_pallets = Value.none ∧ optPos ppp = true ∧
        ∃ n, (optDiv pieces ppp).ceilInt = Except.ok n ∧
          y = { r with availability_pallets := Value.int n }) := by
  unfold fwdPallets at h
  split_ifs at h with hg
  · cases hceil : (optDiv pieces ppp).ceilInt with
    | error e => rw [hceil] at h; simp at h
    | ok n =>
      rw [hceil] at h
      simp at h
      exact Or.inr ⟨hg.1, hg.2.1, n, rfl, h.symm⟩
  · simp at h
    exact Or.inl h.symm

theorem reverseFill_cases {r y : Row} {cartons pallets ppc ppp : Option PyFloat}
    (h : reverseFill r cartons pallets ppc ppp = Except.ok y) :
    y = r ∨
      (r.availability_pieces = Value.none ∧
        ∃ n, y = { r with availability_pieces := Value.int n }) := by
  unfold reverseFill at h
  split_ifs at h with h0 hg1 hg2
  · cases hceil : (optMul cartons ppc).ceilInt with
    | error e => rw [hceil] at h; simp at h
    | ok n =>
      rw [hceil] at h
      simp at h
      exact Or.inr ⟨h0, n, h.symm⟩
  · cases hceil : (optMul pallets ppp).ceilInt with
    | error e => rw [hceil] at h; simp at h
    | ok n =>
      rw [hceil] at h
      simp at h
      exact Or.inr ⟨h0, n, h.symm⟩
  · simp at h
    exact Or.inl h.symm
  · simp at h
    exact Or.inl h.symm

theorem forwardFill_keeps {r y : Row} {pieces ppc ppp : Option PyFloat}
    (h : forwardFill r pieces ppc ppp = Except.ok y) :
    y.piece_per_case = r.piece_per_case ∧
    y.case_per_pallet = r.case_per_pallet ∧
    y.pieces_per_pallet = r.pieces_per_pallet ∧
    y.availability_pieces = r.availability_pieces := by
  unfold forwardFill at h
  split_ifs at h with hp
  · cases h1 : fwdCartons r pieces ppc with
    | error e => rw [h1] at h; simp at h
    | ok r1 =>
      rw [h1] at h
      simp at h
      have k1 := fwdCartons_keeps h1
      have k2 := fwdPallets_keeps h
      exact ⟨k2.1.trans k1.1, k2.2.1.trans k1.2.1, k2.2.2.1.trans k1.2.2.1,
        k2.2.2.2.1.trans k1.2.2.2.1⟩
  · simp at h
    rw [← h]
    exact ⟨rfl, rfl, rfl, rfl⟩

theorem forwardFill_ok {r y : Row} {pieces ppc ppp : Option PyFloat}
    (hp : optPos pieces = true)
    (h : forwardFill r pieces ppc ppp = Except.ok y) :
    ∃ r1, fwdCartons r pieces ppc = Except.ok r1 ∧
      fwdPallets r1 pieces ppp = Except.ok y := by
  rw [forwardFill_run _ _ hp] at h
  cases h1 : fwdCartons r pieces ppc with
  | error e => rw [h1] at h; simp at h
  | ok r1 =>
    rw [h1] at h
    simp at h
    exact ⟨r1, rfl, h⟩

theorem availabilityCore_ok {r y : Row}
    (h : availabilityCore r = Except.ok y) :
    ∃ r1 r2,
      forwardFill r (toNumber r.availability_pieces) (toNumber r.piece_per_case)
        (toNumber r.pieces_per_pallet) = Except.ok r1 ∧
      reverseFill r1 (toNumber r.availability_cartons)
        (toNumber r.availability_pallets) (toNumber r.piece_per_case)
        (toNumber r.pieces_per_pallet) = Except.ok r2 ∧
      forwardFill r2 (toNumber r2.availability_pieces)
        (toNumber r.piece_per_case) (toNumber r.pieces_per_pallet)
        = Except.ok y := by
  unfold availabilityCore at h
  dsimp only at h
  cases h1 : forwardFill r (toNumber r.availability_pieces)
      (toNumber r.piece_per_case) (toNumber r.pieces_per_pallet) with
  | error e => rw [h1] at h; simp at h
  | ok r1 =>
    rw [h1] at h
    simp only [exceptBind_ok] at h
    cases h2 : reverseFill r1 (toNumber r.availability_cartons)
        (toNumber r.availability_pallets) (toNumber r.piece_per_case)
        (toNumber r.pieces_per_pallet) with
    | error e => rw [h2] at h; simp at h
    | ok r2 =>
      rw [h2] at h
      simp only [exceptBind_ok] at h
      exact ⟨r1, r2, rfl, h2, h⟩

theorem availabilityCore_build {r r1 r2 y : Row}
    (h1 : forwardFill r (toNumber r.availability_pieces)
      (toNumber r.piece_per_case) (toNumber r.pieces_per_pallet)
      = Except.ok r1)
    (h2 : reverseFill r1 (toNumber r.availability_cartons)
      (toNumber r.availability_pallets) (toNumber r.piece_per_case)
      (toNumber r.pieces_per_pallet) = Except.ok r2)
    (h3 : forwardFill r2 (toNumber r2.availability_pieces)
      (toNumber r.piece_per_case) (toNumber r.pieces_per_pallet)
      = Except.ok y) :
    availabilityCore r = Except.ok y := by
  unfold availabilityCore
  dsimp only
  rw [h1]
  simp only [exceptBind_ok]
  rw [h2]
  simp only [exceptBind_ok]
  exact h3

theorem completeAvailability_ok {r y : Row}
    (h : completeAvailability r = Except.ok y) :
    ∃ w, availabilityCore r = Except.ok w ∧
      finalizeAvailabilityInts w = Except.ok y := by
  unfold completeAvailability at h
  cases h1 : availabilityCore r with
  | error e => rw [h1] at h; simp at h
  | ok w =>
    rw [h1] at h
    simp only [exceptBind_ok] at h
    exact ⟨w, rfl, h⟩

theorem completeAvailability_build {r w y : Row}
    (h1 : availabilityCore r = Except.ok w)
    (h2 : finalizeAvailabilityInts w = Except.ok y) :
    completeAvailability r = Except.ok y := by
  unfold completeAvailability
  rw [h1]
  simp only [exceptBind_ok]
  exact h2

theorem enginePass_ok {r y : Row} (h : enginePass r = Except.ok y) :
    ∃ w, availabilityCore (completePackagingTriad r) = Except.ok w ∧
      finalizeAvailabilityInts w = Except.ok y := by
  unfold enginePass at h
  exact completeAvailability_ok h

theorem enginePass_build {r w y : Row}
    (h1 : availabilityCore (completePackagingTriad r) = Except.ok w)
    (h2 : finalizeAvailabilityInts w = Except.ok y) :
    enginePass r = Except.ok y := by
  unfold enginePass
  exact completeAvailability_build h1 h2

theorem triad_avail_keeps (r : Row) :
    (completePackagingTriad r).availability_pieces = r.availability_pieces ∧
    (completePackagingTriad r).availability_cartons = r.availability_cartons ∧
    (completePackagingTriad r).availability_pallets = r.availability_pallets := by
  unfold completePackagingTriad
  dsimp only
  refine ⟨?_, ?_, ?_⟩
  · rw [(triadStepA_keeps _ _ _).2.2.1, (triadStepB_keeps _ _ _).2.2.1,
      (triadStepC_keeps _ _ _).2.2.1]
  · rw [(triadStepA_keeps _ _ _).2.2.2.1, (triadStepB_keeps _ _ _).2.2.2.1,
      (triadStepC_keeps _ _ _).2.2.2.1]
  · rw [(triadStepA_keeps _ _ _).2.2.2.2, (triadStepB_keeps _ _ _).2.2.2.2,
      (triadStepC_keeps _ _ _).2.2.2.2]

theorem triad_pres_A {r : Row} (h : r.piece_per_case ≠ Value.none) :
    (completePackagingTriad r).piece_per_case = r.piece_per_case := by
  unfold completePackagingTriad
  dsimp only
  rw [triadStepA_skip _ _ (by
    rw [(triadStepB_keeps _ _ _).1, (triadStepC_keeps _ _ _).1]; exact h),
    (triadStepB_keeps _ _ _).1, (triadStepC_keeps _ _ _).1]

theorem triad_pres_B {r : Row} (h : r.case_per_pallet ≠ Value.none) :
    (completePackagingTriad r).case_per_pallet = r.case_per_pallet := by
  unfold completePackagingTriad
  dsimp only
  rw [(triadStepA_keeps _ _ _).1,
    triadStepB_skip _ _ (by rw [(triadStepC_keeps _ _ _).2.1]; exact h),
    (triadStepC_keeps _ _ _).2.1]

theorem triad_pres_C {r : Row} (h : r.pieces_per_pallet ≠ Value.none) :
    (completePackagingTriad r).pieces_per_pallet = r.pieces_per_pallet := by
  unfold completePackagingTriad
  dsimp only
  rw [(triadStepA_keeps _ _ _).2.1, (triadStepB_keeps _ _ _).2.1,
    triadStepC_skip _ _ h]

/-- A property of the record preserved by one engine pass is preserved by
the whole iteration loop. -/
theorem engineLoop_inv (P : Row → Prop)
    (hstep : ∀ x z, enginePass x = Except.ok z → P x → P z) :
    ∀ n (x y : Row), engineLoop n x = Except.ok y → P x → P y := by
  intro n
  induction n with
  | zero =>
    intro x y h hP
    unfold engineLoop at h
    injection h with h
    rw [← h]
    exact hP
  | succ n ih =>
    intro x y h hP
    unfold engineLoop at h
    cases hp : enginePass x with
    | error e => rw [hp] at h; simp at h
    | ok z =>
      rw [hp] at h
      simp only [exceptBind_ok] at h
      by_cases hr : rowEq z x = true
      · rw [if_pos hr] at h
        injection h with h
        rw [← h]
        exact hstep x z hp hP
      · rw [if_neg hr] at h
        exact ih z y h (hstep x z hp hP)

theorem finalizeRow_triad_keeps {r y : Row}
    (h : finalizeAvailabilityInts r = Except.ok y) :
    y.piece_per_case = r.piece_per_case ∧
    y.case_per_pallet = r.case_per_pallet ∧
    y.pieces_per_pallet = r.pieces_per_pallet := by
  obtain ⟨p, c, l, _, _, _, hy⟩ := finalizeRow_ok h
  rw [hy]
  exact ⟨rfl, rfl, rfl⟩

theorem availabilityCore_triad_keeps {r y : Row}
    (h : availabilityCore r = Except.ok y) :
    y.piece_per_case = r.piece_per_case ∧
    y.case_per_pallet = r.case_per_pallet ∧
    y.pieces_per_pallet = r.pieces_per_pallet := by
  obtain ⟨r1, r2, h1, h2, h3⟩ := availabilityCore_ok h
  have k1 := forwardFill_keeps h1
  have k2 := reverseFill_keeps h2
  have k3 := forwardFill_keeps h3
  exact ⟨k3.1.trans (k2.1.trans k1.1), k3.2.1.trans (k2.2.1.trans k1.2.1),
    k3.2.2.1.trans (k2.2.2.1.trans k1.2.2.1)⟩

theorem forwardFill_avail_pres {r y : Row} {pieces ppc ppp : Option PyFloat}
    (h : forwardFill r pieces ppc ppp = Except.ok y) :
    (r.availability_cartons ≠ Value.none →
      y.availability_cartons = r.availability_cartons) ∧
    (r.availability_pallets ≠ Value.none →
      y.availability_pallets = r.availability_pallets) := by
  unfold forwardFill at h
  split_ifs at h with hp
  · cases h1 : fwdCartons r pieces ppc with
    | error e => rw [h1] at h; simp at h
    | ok r1 =>
      rw [h1] at h
      simp only [exceptBind_ok] at h
      have kc := fwdCartons_keeps h1
      have kp := fwdPallets_keeps h
      constructor
      · intro hne
        rcases fwdCartons_cases h1 with he | ⟨hn, _⟩
        · rw [kp.2.2.2.2, he]
        · exact absurd hn hne
      · intro hne
        rcases fwdPallets_cases h with he | ⟨hn, _⟩
        · rw [he, kc.2.2.2.2]
        · rw [kc.2.2.2.2] at hn
          exact absurd hn hne
  · simp at h
    rw [← h]
    exact ⟨fun _ => rfl, fun _ => rfl⟩

theorem reverseFill_pieces_pres {r y : Row}
    {cartons pallets ppc ppp : Option PyFloat}
    (h : reverseFill r cartons pallets ppc ppp = Except.ok y)
    (hne : r.availability_pieces ≠ Value.none) :
    y.availability_pieces = r.availability_pieces := by
  rcases reverseFill_cases h with he | ⟨hn, _⟩
  · rw [he]
  · exact absurd hn hne

theorem availabilityCore_avail_pres {r y : Row}
    (h : availabilityCore r = Except.ok y) :
    (r.availability_pieces ≠ Value.none →
      y.availability_pieces = r.availability_pieces) ∧
    (r.availability_cartons ≠ Value.none →
      y.availability_cartons = r.availability_cartons) ∧
    (r.availability_pallets ≠ Value.none →
      y.availability_pallets = r.availability_pallets) := by
  obtain ⟨r1, r2, h1, h2, h3⟩ := availabilityCore_ok h
  have k1 := forwardFill_keeps h1
  have k2 := reverseFill_keeps h2
  have k3 := forwardFill_keeps h3
  have p1 := forwardFill_avail_pres h1
  have p3 := forwardFill_avail_pres h3
  refine ⟨?_, ?_, ?_⟩
  · intro hne
    have hr1 : r1.availability_pieces = r.availability_pieces := k1.2.2.2
    have hr2 : r2.availability_pieces = r.availability_pieces := by
      rw [reverseFill_pieces_pres h2 (by rw [hr1]; exact hne), hr1]
    rw [k3.2.2.2, hr2]
  · intro hne
    have hr1 : r1.availability_cartons = r.availability_cartons := p1.1 hne
    have hr2 : r2.availability_cartons = r.availability_cartons := by
      rw [k2.2.2.2.1, hr1]
    rw [p3.1 (by rw [hr2]; exact hne), hr2]
  · intro hne
    have hr1 : r1.availability_pallets = r.availability_pallets := p1.2 hne
    have hr2 : r2.availability_pallets = r.availability_pallets := by
      rw [k2.2.2.2.2, hr1]
    rw [p3.2 (by rw [hr2]; exact hne), hr2]

theorem enginePass_pres_A {x z : Row} (h : enginePass x = Except.ok z)
    (hx : x.piece_per_case ≠ Value.none) :
    z.piece_per_case = x.piece_per_case := by
  obtain ⟨w, hw, hf⟩ := enginePass_ok h
  rw [(finalizeRow_triad_keeps hf).1, (availabilityCore_triad_keeps hw).1,
    triad_pres_A hx]

theorem enginePass_pres_B {x z : Row} (h : enginePass x = Except.ok z)
    (hx : x.case_per_pallet ≠ Value.none) :
    z.case_per_pallet = x.case_per_pallet := by
  obtain ⟨w, hw, hf⟩ := enginePass_ok h
  rw [(finalizeRow_triad_keeps hf).2.1, (availabilityCore_triad_keeps hw).2.1,
    triad_pres_B hx]

theorem enginePass_pres_C {x z : Row} (h : enginePass x = Except.ok z)
    (hx : x.pieces_per_pallet ≠ Value.none) :
    z.pieces_per_pallet = x.pieces_per_pallet := by
  obtain ⟨w, hw, hf⟩ := enginePass_ok h
  rw [(finalizeRow_triad_keeps hf).2.2, (availabilityCore_triad_keeps hw).2.2,
    triad_pres_C hx]

/-- One engine pass maps every already populated availability field through
`finalizeField` of its unchanged value. -/
theorem enginePass_avail {x z : Row} (h : enginePass x = Except.ok z) :
    (x.availability_pieces ≠ Value.none →
      finalizeField x.availability_pieces = Except.ok z.availability_pieces) ∧
    (x.availability_cartons ≠ Value.none →
      finalizeField x.availability_cartons = Except.ok z.availability_cartons) ∧
    (x.availability_pallets ≠ Value.none →
      finalizeField x.availability_pallets = Except.ok z.availability_pallets) := by
  obtain ⟨w, hw, hf⟩ := enginePass_ok h
  obtain ⟨p, c, l, hp, hc, hl, hy⟩ := finalizeRow_ok hf
  have ktr := triad_avail_keeps x
  have kco := availabilityCore_avail_pres hw
  refine ⟨?_, ?_, ?_⟩
  · intro hne
    have hwp : w.availability_pieces = x.availability_pieces := by
      rw [kco.1 (by rw [ktr.1]; exact hne), ktr.1]
    rw [hy]
    rw [hwp] at hp
    exact hp
  · intro hne
    have hwc : w.availability_cartons = x.availability_cartons := by
      rw [kco.2.1 (by rw [ktr.2.1]; exact hne), ktr.2.1]
    rw [hy]
    rw [hwc] at hc
    exact hc
  · intro hne
    have hwl : w.availability_pallets = x.availability_pallets := by
      rw [kco.2.2 (by rw [ktr.2.2]; exact hne), ktr.2.2]
    rw [hy]
    rw [hwl] at hl
    exact hl

theorem engineLoop_succ_ok {n : ℕ} {x y : Row}
    (h : engineLoop (n + 1) x = Except.ok y) :
    ∃ z, enginePass x = Except.ok z ∧ (y = z ∨ engineLoop n z = Except.ok y) := by
  unfold engineLoop at h
  cases hp : enginePass x with
  | error e => rw [hp] at h; simp at h
  | ok z =>
    rw [hp] at h
    simp only [exceptBind_ok] at h
    by_cases hr : rowEq z x = true
    · rw [if_pos hr] at h
      injection h with h
      exact ⟨z, rfl, Or.inl h.symm⟩
    · rw [if_neg hr] at h
      exact ⟨z, rfl, Or.inr h⟩

/-- Establish an invariant at the first pass of the loop, then carry it. -/
theorem engineLoop_estab (P : Row → Prop)
    (hstep : ∀ x z, enginePass x = Except.ok z → P x → P z)
    {n : ℕ} {x y : Row} (h : engineLoop (n + 1) x = Except.ok y)
    (hfirst : ∀ z, enginePass x = Except.ok z → P z) : P y := by
  obtain ⟨z, hp, hrest⟩ := engineLoop_succ_ok h
  rcases hrest with heq | hres
  · rw [heq]
    exact hfirst z hp
  · exact engineLoop_inv P hstep n z y hres (hfirst z hp)

theorem valid_ne_none {v : Value} (h : isValidPositiveNumber v = true) :
    v ≠ Value.none := by
  rw [isValidPositiveNumber_eq] at h
  exact ne_none_of_optPos h

theorem finalizeField_int_any (n : ℤ) :
    finalizeField (Value.int n) = Except.ok (Value.int n) := by
  rcases le_or_lt n 0 with hn | hn
  · exact finalizeField_nonpos (toNumber_int n)
      (by unfold Frac.le0B Frac.ofInt; exact decide_eq_true hn)
  · exact finalizeField_int_pos hn

theorem fwdCartons_err {r : Row} {pieces ppc : Option PyFloat} {e : Unit}
    (hc : r.availability_cartons = Value.none) (hp : optPos ppc = true)
    (hceil : (optDiv pieces ppc).ceilInt = Except.error e) :
    fwdCartons r pieces ppc = Except.error e := by
  unfold fwdCartons
  rw [if_pos ⟨hc, hp, optNeZero_of_optPos hp⟩, hceil]
  rfl

theorem fwdPallets_err {r : Row} {pieces ppp : Option PyFloat} {e : Unit}
    (hc : r.availability_pallets = Value.none) (hp : optPos ppp = true)
    (hceil : (optDiv pieces ppp).ceilInt = Except.error e) :
    fwdPallets r pieces ppp = Except.error e := by
  unfold fwdPallets
  rw [if_pos ⟨hc, hp, optNeZero_of_optPos hp⟩, hceil]
  rfl

theorem reverseFill_cartons_err {r : Row}
    {cartons ppc : Option PyFloat} (pallets ppp : Option PyFloat) {e : Unit}
    (h0 : r.availability_pieces = Value.none)
    (hc : optPos cartons = true) (hp : optPos ppc = true)
    (hceil : (optMul cartons ppc).ceilInt = Except.error e) :
    reverseFill r cartons pallets ppc ppp = Except.error e := by
  unfold reverseFill
  rw [if_pos h0, if_pos ⟨hc, hp⟩, hceil]
  rfl

theorem reverseFill_pallets_err {r : Row}
    {cartons pallets ppc ppp : Option PyFloat} {e : Unit}
    (h0 : r.availability_pieces = Value.none)
    (h1 : ¬(optPos cartons = true ∧ optPos ppc = true))
    (hl : optPos pallets = true) (hp : optPos ppp = true)
    (hceil : (optMul pallets ppp).ceilInt = Except.error e) :
    reverseFill r cartons pallets ppc ppp = Except.error e := by
  unfold reverseFill
  rw [if_pos h0, if_neg h1, if_pos ⟨hl, hp⟩, hceil]
  rfl

/-- The rounded-up product of two valid positive floats, when it does not
raise, is a positive integer. -/
theorem optMul_ceil_pos {a b : Option PyFloat} {n : ℤ}
    (ha : optPos a = true) (hb : optPos b = true)
    (h : (optMul a b).ceilInt = Except.ok n) : 1 ≤ n := by
  cases a with
  | none => simp at ha
  | some fa =>
    cases b with
    | none => simp at hb
    | some fb =>
      simp only [optPos_some] at ha hb
      simp only [optMul_some] at h
      cases fa with
      | finite qa =>
        cases fb with
        | finite qb =>
          simp only [PyFloat.mul, PyFloat.ceilInt] at h
          injection h with h
          rw [← h]
          exact Frac.ceil_pos (Frac.mul_posB ha hb)
        | inf =>
          simp only [PyFloat.pos] at ha
          simp only [PyFloat.mul, ha, if_pos, PyFloat.ceilInt] at h
          cases h
        | neginf => simp [PyFloat.pos] at hb
        | nan => simp [PyFloat.pos] at hb
      | inf =>
        cases fb with
        | finite qb =>
          simp only [PyFloat.pos] at hb
          simp only [PyFloat.mul, hb, if_pos, PyFloat.ceilInt] at h
          cases h
        | inf => simp [PyFloat.mul, PyFloat.ceilInt] at h
        | neginf => simp [PyFloat.pos] at hb
        | nan => simp [PyFloat.pos] at hb
      | neginf => simp [PyFloat.pos] at ha
      | nan => simp [PyFloat.pos] at ha

theorem tameRow_fields {r : Row} (h : tameRow r = true) :
    tameVal r.piece_per_case = true ∧ tameVal r.case_per_pallet = true ∧
    tameVal r.pieces_per_pallet = true ∧
    tameVal r.availability_pieces = true ∧
    tameVal r.availability_cartons = true ∧
    tameVal r.availability_pallets = true := by
  unfold tameRow at h
  simp only [Bool.and_eq_true] at h
  exact ⟨h.1.1.1.1.1, h.1.1.1.1.2, h.1.1.1.2, h.1.1.2, h.1.2, h.2⟩

theorem tameRow_intro {r : Row}
    (h1 : tameVal r.piece_per_case = true)
    (h2 : tameVal r.case_per_pallet = true)
    (h3 : tameVal r.pieces_per_pallet = true)
    (h4 : tameVal r.availability_pieces = true)
    (h5 : tameVal r.availability_cartons = true)
    (h6 : tameVal r.availability_pallets = true) : tameRow r = true := by
  unfold tameRow
  rw [h1, h2, h3, h4, h5, h6]
  rfl

theorem tameVal_int (n : ℤ) : tameVal (Value.int n) = true := rfl

theorem tameVal_absent : tameVal Value.none = true := rfl

theorem tame_pos_finite {a : Option PyFloat}
    (hp : optPos a = true) (ht : tameOpt a = true) :
    ∃ q : Frac, a = some (PyFloat.finite q) ∧ q.posB = true := by
  cases a with
  | none => simp at hp
  | some f =>
    cases f with
    | finite q =>
      refine ⟨q, rfl, ?_⟩
      simpa [PyFloat.pos] using hp
    | inf => simp [tameOpt] at ht
    | neginf => simp [PyFloat.pos] at hp
    | nan => simp [PyFloat.pos] at hp

theorem optMul_tame_pos {a b : Option PyFloat}
    (ha : optPos a = true) (hb : optPos b = true)
    (hta : tameOpt a = true) (htb : tameOpt b = true) :
    ∃ q : Frac, optMul a b = PyFloat.finite q ∧ q.posB = true := by
  obtain ⟨qa, ha2, hpa⟩ := tame_pos_finite ha hta
  obtain ⟨qb, hb2, hpb⟩ := tame_pos_finite hb htb
  rw [ha2, hb2]
  exact ⟨qa.mul qb, rfl, Frac.mul_posB hpa hpb⟩

theorem optDiv_tame_pos {a b : Option PyFloat}
    (ha : optPos a = true) (hb : optPos b = true)
    (hta : tameOpt a = true) (htb : tameOpt b = true) :
    ∃ q : Frac, optDiv a b = PyFloat.finite q ∧ q.posB = true := by
  obtain ⟨qa, ha2, hpa⟩ := tame_pos_finite ha hta
  obtain ⟨qb, hb2, hpb⟩ := tame_pos_finite hb htb
  rw [ha2, hb2]
  exact ⟨qa.div qb, rfl, Frac.div_posB hpa hpb⟩

theorem optDiv_ceil_pos_tame {a b : Option PyFloat} {n : ℤ}
    (ha : optPos a = true) (hb : optPos b = true)
    (hta : tameOpt a = true) (htb : tameOpt b = true)
    (h : (optDiv a b).ceilInt = Except.ok n) : 1 ≤ n := by
  obtain ⟨q, hq, hp⟩ := optDiv_tame_pos ha hb hta htb
  rw [hq] at h
  simp only [PyFloat.ceilInt] at h
  injection h with h
  rw [← h]
  exact Frac.ceil_pos hp

theorem tameRow_update_A {r : Row} (h : tameRow r = true) {v : Value}
    (hv : tameVal v = true) :
    tameRow { r with piece_per_case := v } = true := by
  obtain ⟨t1, t2, t3, t4, t5, t6⟩ := tameRow_fields h
  exact tameRow_intro hv t2 t3 t4 t5 t6

theorem tameRow_update_B {r : Row} (h : tameRow r = true) {v : Value}
    (hv : tameVal v = true) :
    tameRow { r with case_per_pallet := v } = true := by
  obtain ⟨t1, t2, t3, t4, t5, t6⟩ := tameRow_fields h
  exact tameRow_intro t1 hv t3 t4 t5 t6

theorem tameRow_update_C {r : Row} (h : tameRow r = true) {v : Value}
    (hv : tameVal v = true) :
    tameRow { r with pieces_per_pallet := v } = true := by
  obtain ⟨t1, t2, t3, t4, t5, t6⟩ := tameRow_fields h
  exact tameRow_intro t1 t2 hv t4 t5 t6

theorem tameRow_update_pieces {r : Row} (h : tameRow r = true) {v : Value}
    (hv : tameVal v = true) :
    tameRow { r with availability_pieces := v } = true := by
  obtain ⟨t1, t2, t3, t4, t5, t6⟩ := tameRow_fields h
  exact tameRow_intro t1 t2 t3 hv t5 t6

theorem tameRow_update_cartons {r : Row} (h : tameRow r = true) {v : Value}
    (hv : tameVal v = true) :
    tameRow { r with availability_cartons := v } = true := by
  obtain ⟨t1, t2, t3, t4, t5, t6⟩ := tameRow_fields h
  exact tameRow_intro t1 t2 t3 t4 hv t6

theorem tameRow_update_pallets {r : Row} (h : tameRow r = true) {v : Value}
    (hv : tameVal v = true) :
    tameRow { r with availability_pallets := v } = true := by
  obtain ⟨t1, t2, t3, t4, t5, t6⟩ := tameRow_fields h
  exact tameRow_intro t1 t2 t3 t4 t5 hv

theorem triadStepC_cases (r : Row) (a b : Option PyFloat) :
    triadStepC r a b = r ∨
      (optPos a = true ∧ optPos b = true ∧
        triadStepC r a b =
          { r with pieces_per_pallet := Value.float (optMul a b) }) := by
  unfold triadStepC
  split_ifs with hg
  · exact Or.inr ⟨hg.1, hg.2.1, rfl⟩
  · exact Or.inl rfl

theorem triadStepB_cases (r : Row) (a c : Option PyFloat) :
    triadStepB r a c = r ∨
      (optPos a = true ∧ optPos c = true ∧
        triadStepB r a c =
          { r with case_per_pallet := Value.float (optDiv c a) }) := by
  unfold triadStepB
  split_ifs with hg
  · exact Or.inr ⟨hg.1, hg.2.1, rfl⟩
  · exact Or.inl rfl

theorem triadStepA_cases (r : Row) (b c : Option PyFloat) :
    triadStepA r b c = r ∨
      (optPos b = true ∧ optPos c = true ∧
        triadStepA r b c =
          { r with piece_per_case := Value.float (optDiv c b) }) := by
  unfold triadStepA
  split_ifs with hg
  · exact Or.inr ⟨hg.1, hg.2.1, rfl⟩
  · exact Or.inl rfl

/-- Triad completion keeps a tame record tame: it only writes finite
products and quotients of finite positive sources. -/
theorem tame_triad {r : Row} (h : tameRow r = true) :
    tameRow (completePackagingTriad r) = true := by
  obtain ⟨t1, t2, t3, _, _, _⟩ := tameRow_fields h
  unfold completePackagingTriad
  dsimp only
  have hC : tameRow (triadStepC r (toNumber r.piece_per_case)
      (toNumber r.case_per_pallet)) = true := by
    rcases triadStepC_cases r (toNumber r.piece_per_case)
        (toNumber r.case_per_pallet) with hc | ⟨hpa, hpb, hc⟩
    · rw [hc]; exact h
    · rw [hc]
      obtain ⟨q, hq, _⟩ := optMul_tame_pos hpa hpb t1 t2
      exact tameRow_update_C h (by rw [hq]; rfl)
  have hB : tameRow (triadStepB (triadStepC r (toNumber r.piece_per_case)
      (toNumber r.case_per_pallet)) (toNumber r.piece_per_case)
      (toNumber r.pieces_per_pallet)) = true := by
    rcases triadStepB_cases (triadStepC r (toNumber r.piece_per_case)
        (toNumber r.case_per_pallet)) (toNumber r.piece_per_case)
        (toNumber r.pieces_per_pallet) with hc | ⟨hpa, hpc, hc⟩
    · rw [hc]; exact hC
    · rw [hc]
      obtain ⟨q, hq, _⟩ := optDiv_tame_pos hpc hpa t3 t1
      exact tameRow_update_B hC (by rw [hq]; rfl)
  rcases triadStepA_cases (triadStepB (triadStepC r (toNumber r.piece_per_case)
      (toNumber r.case_per_pallet)) (toNumber r.piece_per_case)
      (toNumber r.pieces_per_pallet)) (toNumber r.case_per_pallet)
      (toNumber r.pieces_per_pallet) with hc | ⟨hpb, hpc, hc⟩
  · rw [hc]; exact hB
  · rw [hc]
    obtain ⟨q, hq, _⟩ := optDiv_tame_pos hpc hpb t3 t2
    exact tameRow_update_A hB (by rw [hq]; rfl)

theorem tameVal_def (v : Value) : tameVal v = tameOpt (toNumber v) := rfl

theorem isAbsentOrPosInt_int {n : ℤ} (h : 1 ≤ n) :
    isAbsentOrPosInt (Value.int n) = true := by
  unfold isAbsentOrPosInt
  exact decide_eq_true h

theorem isAbsentOrPosInt_absent : isAbsentOrPosInt Value.none = true := rfl

theorem isAbsentOrPosInt_cases {v : Value} (h : isAbsentOrPosInt v = true) :
    v = Value.none ∨ ∃ n : ℤ, 1 ≤ n ∧ v = Value.int n := by
  cases v with
  | none => exact Or.inl rfl
  | int n =>
    refine Or.inr ⟨n, ?_, rfl⟩
    unfold isAbsentOrPosInt at h
    exact of_decide_eq_true h
  | bool b => cases h
  | float f => cases h
  | str s => cases h

/-- A value satisfying the output contract is a fixed point of
finalization. -/
theorem finalize_posInt_fix {v : Value} (h : isAbsentOrPosInt v = true) :
    finalizeField v = Except.ok v := by
  rcases isAbsentOrPosInt_cases h with rfl | ⟨n, hn, rfl⟩
  · exact finalizeField_none
  · exact finalizeField_int_pos hn

/-- Finalizing a tame value yields either a contract-conforming value or
the value itself kept, in which case it was numeric but not positive. -/
theorem finalize_posInt_or_kept {v w : Value} (ht : tameVal v = true)
    (h : finalizeField v = Except.ok w) :
    isAbsentOrPosInt w = true ∨
      (w = v ∧ isValidPositiveNumber v = false ∧
        (toNumber v).isSome = true) := by
  rcases finalizeField_cases h with ⟨hn, hw⟩ | ⟨f, hf, hp, hw⟩ | ⟨hk, hw⟩
  · rw [hw]
    exact Or.inl isAbsentOrPosInt_absent
  · rw [hw]
    exact Or.inl (isAbsentOrPosInt_int (Frac.ceil_pos hp))
  · rcases hk with hk | ⟨f, hf, hle⟩
    · rw [tameVal_def, hk] at ht
      cases ht
    · right
      have hposf : f.posB = false := by
        rw [Frac.le0B_eq] at hle
        cases hb : f.posB
        · rfl
        · rw [hb] at hle
          cases hle
      refine ⟨hw, ?_, by rw [hf]; rfl⟩
      rw [isValidPositiveNumber_eq, hf]
      simp only [optPos_some, PyFloat.pos]
      exact hposf

theorem finalizeField_tame_val {v w : Value} (ht : tameVal v = true)
    (h : finalizeField v = Except.ok w) : tameVal w = true := by
  rcases finalizeField_cases h with ⟨_, hw⟩ | ⟨f, _, _, hw⟩ | ⟨_, hw⟩
  · rw [hw]; rfl
  · rw [hw]; rfl
  · rw [hw]; exact ht

theorem forwardFill_tame {r y : Row} {pieces ppc ppp : Option PyFloat}
    (ht : tameRow r = true)
    (h : forwardFill r pieces ppc ppp = Except.ok y) : tameRow y = true := by
  by_cases hp : optPos pieces = true
  · obtain ⟨r1, hc, hl⟩ := forwardFill_ok hp h
    have ht1 : tameRow r1 = true := by
      rcases fwdCartons_cases hc with he | ⟨_, _, n, _, he⟩
      · rw [he]; exact ht
      · rw [he]; exact tameRow_update_cartons ht (tameVal_int n)
    rcases fwdPallets_cases hl with he | ⟨_, _, n, _, he⟩
    · rw [he]; exact ht1
    · rw [he]; exact tameRow_update_pallets ht1 (tameVal_int n)
  · have hp2 : optPos pieces = false := by
      cases hob : optPos pieces
      · rfl
      · exact absurd hob hp
    rw [forwardFill_nopieces _ _ hp2] at h
    injection h with h
    rw [← h]
    exact ht

theorem reverseFill_tame {r y : Row} {cartons pallets ppc ppp : Option PyFloat}
    (ht : tameRow r = true)
    (h : reverseFill r cartons pallets ppc ppp = Except.ok y) :
    tameRow y = true := by
  rcases reverseFill_cases h with he | ⟨_, n, he⟩
  · rw [he]; exact ht
  · rw [he]; exact tameRow_update_pieces ht (tameVal_int n)

theorem finalizeRow_tame {r y : Row} (ht : tameRow r = true)
    (h : finalizeAvailabilityInts r = Except.ok y) : tameRow y = true := by
  obtain ⟨p, c, l, hp, hc, hl, hy⟩ := finalizeRow_ok h
  obtain ⟨t1, t2, t3, t4, t5, t6⟩ := tameRow_fields ht
  rw [hy]
  exact tameRow_intro t1 t2 t3 (finalizeField_tame_val t4 hp)
    (finalizeField_tame_val t5 hc) (finalizeField_tame_val t6 hl)

theorem availabilityCore_tame {x w : Row} (ht : tameRow x = true)
    (h : availabilityCore x = Except.ok w) : tameRow w = true := by
  obtain ⟨r1, r2, h1, h2, h3⟩ := availabilityCore_ok h
  exact forwardFill_tame (reverseFill_tame (forwardFill_tame ht h1) h2) h3

theorem enginePass_tame {x z : Row} (ht : tameRow x = true)
    (h : enginePass x = Except.ok z) : tameRow z = true := by
  obtain ⟨w, hw, hf⟩ := enginePass_ok h
  exact finalizeRow_tame (availabilityCore_tame (tame_triad ht) hw) hf

theorem forwardFill_classify {r y : Row} {pieces ppc ppp : Option PyFloat}
    (h : forwardFill r pieces ppc ppp = Except.ok y)
    (htp : tameOpt pieces = true) (htc : tameOpt ppc = true)
    (htl : tameOpt ppp = true) :
    (y.availability_cartons = r.availability_cartons ∨
      (r.availability_cartons = Value.none ∧
        isAbsentOrPosInt y.availability_cartons = true)) ∧
    (y.availability_pallets = r.availability_pallets ∨
      (r.availability_pallets = Value.none ∧
        isAbsentOrPosInt y.availability_pallets = true)) := by
  by_cases hp : optPos pieces = true
  · obtain ⟨r1, hc, hl⟩ := forwardFill_ok hp h
    constructor
    · rcases fwdCartons_cases hc with he | ⟨hn, hpd, n, hceil, he⟩
      · left
        rw [(fwdPallets_keeps hl).2.2.2.2, he]
      · right
        refine ⟨hn, ?_⟩
        have hn1 : 1 ≤ n := optDiv_ceil_pos_tame hp hpd htp htc hceil
        rw [(fwdPallets_keeps hl).2.2.2.2, he]
        exact isAbsentOrPosInt_int hn1
    · rcases fwdPallets_cases hl with he | ⟨hn, hpd, n, hceil, he⟩
      · left
        rw [he, (fwdCartons_keeps hc).2.2.2.2]
      · right
        have hrn : r1.availability_pallets = r.availability_pallets :=
          (fwdCartons_keeps hc).2.2.2.2
        refine ⟨by rw [← hrn]; exact hn, ?_⟩
        have hn1 : 1 ≤ n := optDiv_ceil_pos_tame hp hpd htp htl hceil
        rw [he]
        exact isAbsentOrPosInt_int hn1
  · have hp2 : optPos pieces = false := by
      cases hob : optPos pieces
      · rfl
      · exact absurd hob hp
    rw [forwardFill_nopieces _ _ hp2] at h
    injection h with h
    rw [← h]
    exact ⟨Or.inl rfl, Or.inl rfl⟩

theorem reverseFill_classify {r y : Row}
    {cartons pallets ppc ppp : Option PyFloat}
    (h : reverseFill r cartons pallets ppc ppp = Except.ok y) :
    y.availability_pieces = r.availability_pieces ∨
      (r.availability_pieces = Value.none ∧
        isAbsentOrPosInt y.availability_pieces = true) := by
  unfold reverseFill at h
  split_ifs at h with h0 hg1 hg2
  · cases hceil : (optMul cartons ppc).ceilInt with
    | error e => rw [hceil] at h; simp at h
    | ok n =>
      rw [hceil] at h
      simp at h
      right
      refine ⟨h0, ?_⟩
      rw [← h]
      exact isAbsentOrPosInt_int (optMul_ceil_pos hg1.1 hg1.2 hceil)
  · cases hceil : (optMul pallets ppp).ceilInt with
    | error e => rw [hceil] at h; simp at h
    | ok n =>
      rw [hceil] at h
      simp at h
      right
      refine ⟨h0, ?_⟩
      rw [← h]
      exact isAbsentOrPosInt_int (optMul_ceil_pos hg2.1 hg2.2 hceil)
  · simp at h
    rw [← h]
    exact Or.inl rfl
  · simp at h
    rw [← h]
    exact Or.inl rfl

theorem availabilityCore_classify {x w : Row} (ht : tameRow x = true)
    (h : availabilityCore x = Except.ok w) :
    (w.availability_pieces = x.availability_pieces ∨
      (x.availability_pieces = Value.none ∧
        isAbsentOrPosInt w.availability_pieces = true)) ∧
    (w.availability_cartons = x.availability_cartons ∨
      (x.availability_cartons = Value.none ∧
        isAbsentOrPosInt w.availability_cartons = true)) ∧
    (w.availability_pallets = x.availability_pallets ∨
      (x.availability_pallets = Value.none ∧
        isAbsentOrPosInt w.availability_pallets = true)) := by
  obtain ⟨t1, t2, t3, t4, t5, t6⟩ := tameRow_fields ht
  obtain ⟨r1, r2, h1, h2, h3⟩ := availabilityCore_ok h
  have ht1 : tameRow r1 = true := forwardFill_tame ht h1
  have ht2 : tameRow r2 = true := reverseFill_tame ht1 h2
  have c1 := forwardFill_classify h1 t4 t1 t3
  have cr := reverseFill_classify h2
  have c3 := forwardFill_classify h3 (tameRow_fields ht2).2.2.2.1 t1 t3
  have kp1 : r1.availability_pieces = x.availability_pieces :=
    (forwardFill_keeps h1).2.2.2
  have kp3 : w.availability_pieces = r2.availability_pieces :=
    (forwardFill_keeps h3).2.2.2
  have kc2 : r2.availability_cartons = r1.availability_cartons :=
    (reverseFill_keeps h2).2.2.2.1
  have kl2 : r2.availability_pallets = r1.availability_pallets :=
    (reverseFill_keeps h2).2.2.2.2
  refine ⟨?_, ?_, ?_⟩
  · rcases cr with he | ⟨hn, hpi⟩
    · left
      rw [kp3, he, kp1]
    · right
      refine ⟨by rw [← kp1]; exact hn, ?_⟩
      rw [kp3]
      exact hpi
  · rcases c3.1 with he | ⟨hn, hpi⟩
    · rcases c1.1 with he1 | ⟨hn1, hpi1⟩
      · left
        rw [he, kc2, he1]
      · right
        refine ⟨hn1, ?_⟩
        rw [he, kc2]
        exact hpi1
    · rcases c1.1 with he1 | ⟨hn1, hpi1⟩
      · right
        refine ⟨?_, hpi⟩
        rw [← he1, ← kc2]
        exact hn
      · exact Or.inr ⟨hn1, hpi⟩
  · rcases c3.2 with he | ⟨hn, hpi⟩
    · rcases c1.2 with he1 | ⟨hn1, hpi1⟩
      · left
        rw [he, kl2, he1]
      · right
        refine ⟨hn1, ?_⟩
        rw [he, kl2]
        exact hpi1
    · rcases c1.2 with he1 | ⟨hn1, hpi1⟩
      · right
        refine ⟨?_, hpi⟩
        rw [← he1, ← kl2]
        exact hn
      · exact Or.inr ⟨hn1, hpi⟩

theorem enginePass_avail_classify {x z : Row} (ht : tameRow x = true)
    (h : enginePass x = Except.ok z) :
    (∃ v, (v = x.availability_pieces ∨
        (x.availability_pieces = Value.none ∧ isAbsentOrPosInt v = true)) ∧
      finalizeField v = Except.ok z.availability_pieces) ∧
    (∃ v, (v = x.availability_cartons ∨
        (x.availability_cartons = Value.none ∧ isAbsentOrPosInt v = true)) ∧
      finalizeField v = Except.ok z.availability_cartons) ∧
    (∃ v, (v = x.availability_pallets ∨
        (x.availability_pallets = Value.none ∧ isAbsentOrPosInt v = true)) ∧
      finalizeField v = Except.ok z.availability_pallets) := by
  obtain ⟨w, hw, hf⟩ := enginePass_ok h
  have ktr := triad_avail_keeps x
  have hcc := availabilityCore_classify (tame_triad ht) hw
  obtain ⟨p, c, l, hfp, hfc, hfl, hy⟩ := finalizeRow_ok hf
  have hz1 : z.availability_pieces = p := by rw [hy]
  have hz2 : z.availability_cartons = c := by rw [hy]
  have hz3 : z.availability_pallets = l := by rw [hy]
  refine ⟨⟨w.availability_pieces, ?_, by rw [hz1]; exact hfp⟩,
    ⟨w.availability_cartons, ?_, by rw [hz2]; exact hfc⟩,
    ⟨w.availability_pallets, ?_, by rw [hz3]; exact hfl⟩⟩
  · rcases hcc.1 with he | ⟨hn, hpi⟩
    · left
      rw [he, ktr.1]
    · right
      exact ⟨by rw [← ktr.1]; exact hn, hpi⟩
  · rcases hcc.2.1 with he | ⟨hn, hpi⟩
    · left
      rw [he, ktr.2.1]
    · right
      exact ⟨by rw [← ktr.2.1]; exact hn, hpi⟩
  · rcases hcc.2.2 with he | ⟨hn, hpi⟩
    · left
      rw [he, ktr.2.2]
    · right
      exact ⟨by rw [← ktr.2.2]; exact hn, hpi⟩

theorem Qfield_step {rf xv zv : Value} (htx : tameVal xv = true)
    (hQ : isAbsentOrPosInt xv = true ∨
      (xv = rf ∧ isValidPositiveNumber rf = false ∧
        (toNumber rf).isSome = true))
    (hex : ∃ v, (v = xv ∨ (xv = Value.none ∧ isAbsentOrPosInt v = true)) ∧
      finalizeField v = Except.ok zv) :
    isAbsentOrPosInt zv = true ∨
      (zv = rf ∧ isValidPositiveNumber rf = false ∧
        (toNumber rf).isSome = true) := by
  obtain ⟨v, hv, hfin⟩ := hex
  rcases hv with hv | ⟨hnone, hpi⟩
  · subst hv
    rcases hQ with hpos | ⟨heq, hnv, hsome⟩
    · rw [finalize_posInt_fix hpos] at hfin
      injection hfin with hfin
      left
      rw [← hfin]
      exact hpos
    · rcases finalize_posInt_or_kept htx hfin with hpos | ⟨hk, _, _⟩
      · left
        exact hpos
      · right
        exact ⟨by rw [hk, heq], hnv, hsome⟩
  · rw [finalize_posInt_fix hpi] at hfin
    injection hfin with hfin
    left
    rw [← hfin]
    exact hpi

theorem Qfield_first {rf zv : Value} (htr : tameVal rf = true)
    (hex : ∃ v, (v = rf ∨ (rf = Value.none ∧ isAbsentOrPosInt v = true)) ∧
      finalizeField v = Except.ok zv) :
    isAbsentOrPosInt zv = true ∨
      (zv = rf ∧ isValidPositiveNumber rf = false ∧
        (toNumber rf).isSome = true) := by
  obtain ⟨v, hv, hfin⟩ := hex
  rcases hv with hv | ⟨hnone, hpi⟩
  · subst hv
    rcases finalize_posInt_or_kept htr hfin with hpos | hk
    · left
      exact hpos
    · right
      exact hk
  · rw [finalize_posInt_fix hpi] at hfin
    injection hfin with hfin
    left
    rw [← hfin]
    exact hpi

theorem engine_pres_A {r out : Row} (h : applyPackagingMath r = Except.ok out)
    (hne : r.piece_per_case ≠ Value.none) :
    out.piece_per_case = r.piece_per_case := by
  unfold applyPackagingMath at h
  exact engineLoop_inv (fun x => x.piece_per_case = r.piece_per_case)
    (fun x z hp hP => by
      have hPx : x.piece_per_case = r.piece_per_case := hP
      show z.piece_per_case = r.piece_per_case
      rw [enginePass_pres_A hp (by rw [hPx]; exact hne), hPx])
    3 r out h rfl

theorem engine_pres_B {r out : Row} (h : applyPackagingMath r = Except.ok out)
    (hne : r.case_per_pallet ≠ Value.none) :
    out.case_per_pallet = r.case_per_pallet := by
  unfold applyPackagingMath at h
  exact engineLoop_inv (fun x => x.case_per_pallet = r.case_per_pallet)
    (fun x z hp hP => by
      have hPx : x.case_per_pallet = r.case_per_pallet := hP
      show z.case_per_pallet = r.case_per_pallet
      rw [enginePass_pres_B hp (by rw [hPx]; exact hne), hPx])
    3 r out h rfl

theorem engine_pres_C {r out : Row} (h : applyPackagingMath r = Except.ok out)
    (hne : r.pieces_per_pallet ≠ Value.none) :
    out.pieces_per_pallet = r.pieces_per_pallet := by
  unfold applyPackagingMath at h
  exact engineLoop_inv (fun x => x.pieces_per_pallet = r.pieces_per_pallet)
    (fun x z hp hP => by
      have hPx : x.pieces_per_pallet = r.pieces_per_pallet := hP
      show z.pieces_per_pallet = r.pieces_per_pallet
      rw [enginePass_pres_C hp (by rw [hPx]; exact hne), hPx])
    3 r out h rfl

theorem engine_avail_pieces {r out : Row}
    (h : applyPackagingMath r = Except.ok out)
    (hv : isValidPositiveNumber r.availability_pieces = true) :
    out.availability_pieces = ceilIfPos r.availability_pieces := by
  rw [isValidPositiveNumber_eq] at hv
  unfold applyPackagingMath at h
  cases hq : toNumber r.availability_pieces with
  | none => rw [hq] at hv; cases hv
  | some f =>
    rw [hq] at hv
    simp only [optPos_some] at hv
    cases f with
    | finite q =>
      simp only [PyFloat.pos] at hv
      have hne := toNumber_ne_none hq
      have hP := engineLoop_estab
        (fun x => x.availability_pieces = Value.int q.ceil)
        (fun x z hp hPx => by
          have hstep := (enginePass_avail hp).1 (by rw [hPx]; intro hc; cases hc)
          rw [hPx, finalizeField_int_pos (Frac.ceil_pos hv)] at hstep
          injection hstep with hstep
          exact hstep.symm)
        h
        (fun z hp => by
          have hz := (enginePass_avail hp).1 hne
          rw [finalizeField_pos hq hv] at hz
          injection hz with hz
          exact hz.symm)
      rw [hP]
      unfold ceilIfPos
      rw [hq]
    | inf =>
      obtain ⟨z, hp, _⟩ := engineLoop_succ_ok h
      have hz := (enginePass_avail hp).1 (toNumber_ne_none hq)
      rw [finalizeField_inf hq] at hz
      cases hz
    | neginf => simp [PyFloat.pos] at hv
    | nan => simp [PyFloat.pos] at hv

theorem engine_avail_cartons {r out : Row}
    (h : applyPackagingMath r = Except.ok out)
    (hv : isValidPositiveNumber r.availability_cartons = true) :
    out.availability_cartons = ceilIfPos r.availability_cartons := by
  rw [isValidPositiveNumber_eq] at hv
  unfold applyPackagingMath at h
  cases hq : toNumber r.availability_cartons with
  | none => rw [hq] at hv; cases hv
  | some f =>
    rw [hq] at hv
    simp only [optPos_some] at hv
    cases f with
    | finite q =>
      simp only [PyFloat.pos] at hv
      have hne := toNumber_ne_none hq
      have hP := engineLoop_estab
        (fun x => x.availability_cartons = Value.int q.ceil)
        (fun x z hp hPx => by
          have hstep := (enginePass_avail hp).2.1 (by rw [hPx]; intro hc; cases hc)
          rw [hPx, finalizeField_int_pos (Frac.ceil_pos hv)] at hstep
          injection hstep with hstep
          exact hstep.symm)
        h
        (fun z hp => by
          have hz := (enginePass_avail hp).2.1 hne
          rw [finalizeField_pos hq hv] at hz
          injection hz with hz
          exact hz.symm)
      rw [hP]
      unfold ceilIfPos
      rw [hq]
    | inf =>
      obtain ⟨z, hp, _⟩ := engineLoop_succ_ok h
      have hz := (enginePass_avail hp).2.1 (toNumber_ne_none hq)
      rw [finalizeField_inf hq] at hz
      cases hz
    | neginf => simp [PyFloat.pos] at hv
    | nan => simp [PyFloat.pos] at hv

theorem engine_avail_pallets {r out : Row}
    (h : applyPackagingMath r = Except.ok out)
    (hv : isValidPositiveNumber r.availability_pallets = true) :
    out.availability_pallets = ceilIfPos r.availability_pallets := by
  rw [isValidPositiveNumber_eq] at hv
  unfold applyPackagingMath at h
  cases hq : toNumber r.availability_pallets with
  | none => rw [hq] at hv; cases hv
  | some f =>
    rw [hq] at hv
    simp only [optPos_some] at hv
    cases f with
    | finite q =>
      simp only [PyFloat.pos] at hv
      have hne := toNumber_ne_none hq
      have hP := engineLoop_estab
        (fun x => x.availability_pallets = Value.int q.ceil)
        (fun x z hp hPx => by
          have hstep := (enginePass_avail hp).2.2 (by rw [hPx]; intro hc; cases hc)
          rw [hPx, finalizeField_int_pos (Frac.ceil_pos hv)] at hstep
          injection hstep with hstep
          exact hstep.symm)
        h
        (fun z hp => by
          have hz := (enginePass_avail hp).2.2 hne
          rw [finalizeField_pos hq hv] at hz
          injection hz with hz
          exact hz.symm)
      rw [hP]
      unfold ceilIfPos
      rw [hq]
    | inf =>
      obtain ⟨z, hp, _⟩ := engineLoop_succ_ok h
      have hz := (enginePass_avail hp).2.2 (toNumber_ne_none hq)
      rw [finalizeField_inf hq] at hz
      cases hz
    | neginf => simp [PyFloat.pos] at hv
    | nan => simp [PyFloat.pos] at hv

end Helpers

theorem rowExt {x y : Row} (h1 : x.piece_per_case = y.piece_per_case)
    (h2 : x.case_per_pallet = y.case_per_pallet)
    (h3 : x.pieces_per_pallet = y.pieces_per_pallet)
    (h4 : x.availability_pieces = y.availability_pieces)
    (h5 : x.availability_cartons = y.availability_cartons)
    (h6 : x.availability_pallets = y.availability_pallets) : x = y := by
  cases x
  cases y
  simp only [Row.mk.injEq]
  exact ⟨h1, h2, h3, h4, h5, h6⟩

theorem pyEq_val_none {v : Value} (h : v ≠ Value.none) :
    pyEq v Value.none = false := by
  cases v with
  | none => exact absurd rfl h
  | bool b => rfl
  | int n => rfl
  | float f => rfl
  | str s => rfl

theorem pyEq_none_val {v : Value} (h : v ≠ Value.none) :
    pyEq Value.none v = false := by
  cases v with
  | none => exact absurd rfl h
  | bool b => rfl
  | int n => rfl
  | float f => rfl
  | str s => rfl

theorem pyEq_int_none (n : ℤ) : pyEq (Value.int n) Value.none = false := rfl

theorem pyEq_float_none (f : PyFloat) :
    pyEq (Value.float f) Value.none = false := rfl

theorem rowEq_fields {x y : Row} (h : rowEq x y = true) :
    pyEq x.piece_per_case y.piece_per_case = true ∧
    pyEq x.case_per_pallet y.case_per_pallet = true ∧
    pyEq x.pieces_per_pallet y.pieces_per_pallet = true ∧
    pyEq x.availability_pieces y.availability_pieces = true ∧
    pyEq x.availability_cartons y.availability_cartons = true ∧
    pyEq x.availability_pallets y.availability_pallets = true := by
  unfold rowEq at h
  simp only [Bool.and_eq_true] at h
  exact ⟨h.1.1.1.1.1, h.1.1.1.1.2, h.1.1.1.2, h.1.1.2, h.1.2, h.2⟩

theorem triad_C_write {r : Row} (h : triadGC r) :
    (completePackagingTriad r).pieces_per_pallet =
      Value.float (optMul (toNumber r.piece_per_case)
        (toNumber r.case_per_pallet)) := by
  obtain ⟨h1, h2, h3⟩ := h
  unfold completePackagingTriad
  dsimp only
  rw [(triadStepA_keeps _ _ _).2.1, (triadStepB_keeps _ _ _).2.1,
    triadStepC_write h1 h2 h3]

theorem triad_C_skip {r : Row} (h : ¬triadGC r) :
    (completePackagingTriad r).pieces_per_pallet = r.pieces_per_pallet := by
  unfold completePackagingTriad
  dsimp only
  rw [(triadStepA_keeps _ _ _).2.1, (triadStepB_keeps _ _ _).2.1]
  unfold triadStepC
  rw [if_neg (fun hg => h ⟨hg.1, hg.2.1, hg.2.2⟩)]

theorem triad_B_write {r : Row} (h : triadGB r) :
    (completePackagingTriad r).case_per_pallet =
      Value.float (optDiv (toNumber r.pieces_per_pallet)
        (toNumber r.piece_per_case)) := by
  obtain ⟨h1, h2, h3⟩ := h
  unfold completePackagingTriad
  dsimp only
  rw [(triadStepA_keeps _ _ _).1]
  rw [triadStepB_write h1 h2
    (by rw [(triadStepC_keeps _ _ _).2.1]; exact h3)]

theorem triad_B_skip {r : Row} (h : ¬triadGB r) :
    (completePackagingTriad r).case_per_pallet = r.case_per_pallet := by
  unfold completePackagingTriad
  dsimp only
  rw [(triadStepA_keeps _ _ _).1]
  unfold triadStepB
  rw [if_neg (fun hg => h ⟨hg.1, hg.2.1,
      ((triadStepC_keeps _ _ _).2.1).symm.trans hg.2.2.1⟩),
    (triadStepC_keeps _ _ _).2.1]

theorem triad_A_write {r : Row} (h : triadGA r) :
    (completePackagingTriad r).piece_per_case =
      Value.float (optDiv (toNumber r.pieces_per_pallet)
        (toNumber r.case_per_pallet)) := by
  obtain ⟨h1, h2, h3⟩ := h
  unfold completePackagingTriad
  dsimp only
  rw [triadStepA_write h1 h2
    (by rw [(triadStepB_keeps _ _ _).1, (triadStepC_keeps _ _ _).1]; exact h3)]

theorem triad_A_skip {r : Row} (h : ¬triadGA r) :
    (completePackagingTriad r).piece_per_case = r.piece_per_case := by
  unfold completePackagingTriad
  dsimp only
  unfold triadStepA
  rw [if_neg (fun hg => h ⟨hg.1, hg.2.1,
      (((triadStepC_keeps _ _ _).1).symm.trans
        ((triadStepB_keeps _ _ _).1).symm).trans hg.2.2.1⟩),
    (triadStepB_keeps _ _ _).1, (triadStepC_keeps _ _ _).1]

theorem triad_noop {z : Row} (h1 : ¬triadGC z) (h2 : ¬triadGB z)
    (h3 : ¬triadGA z) : completePackagingTriad z = z := by
  have ka := triad_avail_keeps z
  exact rowExt (triad_A_skip h3) (triad_B_skip h2) (triad_C_skip h1)
    ka.1 ka.2.1 ka.2.2

theorem triad_quiescent (r : Row) :
    ¬triadGC (completePackagingTriad r) ∧
    ¬triadGB (completePackagingTriad r) ∧
    ¬triadGA (completePackagingTriad r) := by
  refine ⟨?_, ?_, ?_⟩
  · intro hg
    obtain ⟨hA, hB, hC⟩ := hg
    by_cases hgc : triadGC r
    · rw [triad_C_write hgc] at hC
      exact Value.noConfusion hC
    · have hC' : r.pieces_per_pallet = Value.none := by
        rw [← triad_C_skip hgc]
        exact hC
      have hc0 : optPos (toNumber r.pieces_per_pallet) = false := by
        rw [hC']
        rfl
      have hBeq : (completePackagingTriad r).case_per_pallet =
          r.case_per_pallet :=
        triad_B_skip (fun hg2 => Bool.noConfusion (hg2.2.1.symm.trans hc0))
      have hAeq : (completePackagingTriad r).piece_per_case =
          r.piece_per_case :=
        triad_A_skip (fun hg2 => Bool.noConfusion (hg2.2.1.symm.trans hc0))
      rw [hAeq] at hA
      rw [hBeq] at hB
      exact hgc ⟨hA, hB, hC'⟩
  · intro hg
    obtain ⟨hA, hC, hB⟩ := hg
    by_cases hgb : triadGB r
    · rw [triad_B_write hgb] at hB
      exact Value.noConfusion hB
    · have hB' : r.case_per_pallet = Value.none := by
        rw [← triad_B_skip hgb]
        exact hB
      have hb0 : optPos (toNumber r.case_per_pallet) = false := by
        rw [hB']
        rfl
      have hCeq : (completePackagingTriad r).pieces_per_pallet =
          r.pieces_per_pallet :=
        triad_C_skip (fun hg2 => Bool.noConfusion (hg2.2.1.symm.trans hb0))
      have hAeq : (completePackagingTriad r).piece_per_case =
          r.piece_per_case :=
        triad_A_skip (fun hg2 => Bool.noConfusion (hg2.1.symm.trans hb0))
      rw [hAeq] at hA
      rw [hCeq] at hC
      exact hgb ⟨hA, hC, hB'⟩
  · intro hg
    obtain ⟨hB, hC, hA⟩ := hg
    by_cases hga : triadGA r
    · rw [triad_A_write hga] at hA
      exact Value.noConfusion hA
    · have hA' : r.piece_per_case = Value.none := by
        rw [← triad_A_skip hga]
        exact hA
      have ha0 : optPos (toNumber r.piece_per_case) = false := by
        rw [hA']
        rfl
      have hCeq : (completePackagingTriad r).pieces_per_pallet =
          r.pieces_per_pallet :=
        triad_C_skip (fun hg2 => Bool.noConfusion (hg2.1.symm.trans ha0))
      have hBeq : (completePackagingTriad r).case_per_pallet =
          r.case_per_pallet :=
        triad_B_skip (fun hg2 => Bool.noConfusion (hg2.1.symm.trans ha0))
      rw [hBeq] at hB
      rw [hCeq] at hC
      exact hga ⟨hB, hC, hA'⟩

theorem triad_noop_of_fields {y t : Row}
    (hA : y.piece_per_case = t.piece_per_case)
    (hB : y.case_per_pallet = t.case_per_pallet)
    (hC : y.pieces_per_pallet = t.pieces_per_pallet)
    (g1 : ¬triadGC t) (g2 : ¬triadGB t) (g3 : ¬triadGA t) :
    completePackagingTriad y = y := by
  apply triad_noop
  · intro hg
    obtain ⟨x1, x2, x3⟩ := hg
    rw [hA] at x1
    rw [hB] at x2
    rw [hC] at x3
    exact g1 ⟨x1, x2, x3⟩
  · intro hg
    obtain ⟨x1, x2, x3⟩ := hg
    rw [hA] at x1
    rw [hC] at x2
    rw [hB] at x3
    exact g2 ⟨x1, x2, x3⟩
  · intro hg
    obtain ⟨x1, x2, x3⟩ := hg
    rw [hB] at x1
    rw [hC] at x2
    rw [hA] at x3
    exact g3 ⟨x1, x2, x3⟩

theorem fwdCartons_forced {r ra : Row} {pieces ppc : Option PyFloat}
    (hc : r.availability_cartons = Value.none) (hp : optPos ppc = true)
    (h : fwdCartons r pieces ppc = Except.ok ra) :
    ∃ n : ℤ, ra = { r with availability_cartons := Value.int n } := by
  unfold fwdCartons at h
  rw [if_pos ⟨hc, hp, optNeZero_of_optPos hp⟩] at h
  cases hceil : (optDiv pieces ppc).ceilInt with
  | error e => rw [hceil] at h; simp at h
  | ok n =>
    rw [hceil] at h
    simp only [exceptBind_ok, exceptPure] at h
    exact ⟨n, (Except.ok.inj h).symm⟩

theorem fwdPallets_forced {r ra : Row} {pieces ppp : Option PyFloat}
    (hc : r.availability_pallets = Value.none) (hp : optPos ppp = true)
    (h : fwdPallets r pieces ppp = Except.ok ra) :
    ∃ n : ℤ, ra = { r with availability_pallets := Value.int n } := by
  unfold fwdPallets at h
  rw [if_pos ⟨hc, hp, optNeZero_of_optPos hp⟩] at h
  cases hceil : (optDiv pieces ppp).ceilInt with
  | error e => rw [hceil] at h; simp at h
  | ok n =>
    rw [hceil] at h
    simp only [exceptBind_ok, exceptPure] at h
    exact ⟨n, (Except.ok.inj h).symm⟩

theorem reverseFill_forced1 {r r2 : Row}
    {cartons pallets ppc ppp : Option PyFloat}
    (h0 : r.availability_pieces = Value.none)
    (hc : optPos cartons = true) (hp : optPos ppc = true)
    (h : reverseFill r cartons pallets ppc ppp = Except.ok r2) :
    ∃ n : ℤ, r2 = { r with availability_pieces := Value.int n } := by
  unfold reverseFill at h
  rw [if_pos h0, if_pos ⟨hc, hp⟩] at h
  cases hceil : (optMul cartons ppc).ceilInt with
  | error e => rw [hceil] at h; simp at h
  | ok n =>
    rw [hceil] at h
    simp only [exceptBind_ok, exceptPure] at h
    exact ⟨n, (Except.ok.inj h).symm⟩

theorem reverseFill_forced2 {r r2 : Row}
    {cartons pallets ppc ppp : Option PyFloat}
    (h0 : r.availability_pieces = Value.none)
    (h1 : ¬(optPos cartons = true ∧ optPos ppc = true))
    (hl : optPos pallets = true) (hp : optPos ppp = true)
    (h : reverseFill r cartons pallets ppc ppp = Except.ok r2) :
    ∃ n : ℤ, r2 = { r with availability_pieces := Value.int n } := by
  unfold reverseFill at h
  rw [if_pos h0, if_neg h1, if_pos ⟨hl, hp⟩] at h
  cases hceil : (optMul pallets ppp).ceilInt with
  | error e => rw [hceil] at h; simp at h
  | ok n =>
    rw [hceil] at h
    simp only [exceptBind_ok, exceptPure] at h
    exact ⟨n, (Except.ok.inj h).symm⟩

theorem core_noop {z : Row} (hq : coreQuiescent z) :
    availabilityCore z = Except.ok z := by
  obtain ⟨q1, q2, q3, q4⟩ := hq
  have hst : forwardFill z (toNumber z.availability_pieces)
      (toNumber z.piece_per_case) (toNumber z.pieces_per_pallet) =
      Except.ok z := by
    cases hp : optPos (toNumber z.availability_pieces) with
    | false => exact forwardFill_nopieces _ _ hp
    | true =>
      rw [forwardFill_run _ _ hp]
      have h1 : fwdCartons z (toNumber z.availability_pieces)
          (toNumber z.piece_per_case) = Except.ok z := by
        cases hc : optPos (toNumber z.piece_per_case) with
        | false => exact fwdCartons_skip_nodiv _ hc
        | true => exact fwdCartons_skip_filled _ _ (q1 hp hc)
      rw [h1]
      simp only [exceptBind_ok]
      cases hl : optPos (toNumber z.pieces_per_pallet) with
      | false => exact fwdPallets_skip_nodiv _ hl
      | true => exact fwdPallets_skip_filled _ _ (q2 hp hl)
  have hrev : reverseFill z (toNumber z.availability_cartons)
      (toNumber z.availability_pallets) (toNumber z.piece_per_case)
      (toNumber z.pieces_per_pallet) = Except.ok z := by
    by_cases h0 : z.availability_pieces = Value.none
    · exact reverseFill_nosrc (q3 h0) (q4 h0)
    · exact reverseFill_skip _ _ _ _ h0
  unfold availabilityCore
  dsimp only
  rw [hst]
  simp only [exceptBind_ok]
  rw [hrev]
  simp only [exceptBind_ok]
  exact hst

theorem core_quiescent_post {x w : Row}
    (h : availabilityCore x = Except.ok w) : coreQuiescent w := by
  obtain ⟨r1, r2, h1, h2, h3⟩ := availabilityCore_ok h
  have k1 := forwardFill_keeps h1
  have k3 := forwardFill_keeps h3
  have kt := availabilityCore_triad_keeps h
  refine ⟨?_, ?_, ?_, ?_⟩
  · intro hwp hwc0
    have hppc : optPos (toNumber x.piece_per_case) = true := by
      rw [← kt.1]
      exact hwc0
    rw [k3.2.2.2] at hwp
    obtain ⟨ra, hca, hpa⟩ := forwardFill_ok hwp h3
    have kp := fwdPallets_keeps hpa
    by_cases hc2 : r2.availability_cartons = Value.none
    · obtain ⟨n, hra⟩ := fwdCartons_forced hc2 hppc hca
      intro hw0
      rw [kp.2.2.2.2, hra] at hw0
      exact Value.noConfusion hw0
    · have hskip : fwdCartons r2 (toNumber r2.availability_pieces)
          (toNumber x.piece_per_case) = Except.ok r2 :=
        fwdCartons_skip_filled _ _ hc2
      have hra : r2 = ra := Except.ok.inj (hskip.symm.trans hca)
      intro hw0
      rw [kp.2.2.2.2, ← hra] at hw0
      exact hc2 hw0
  · intro hwp hwl0
    have hppp : optPos (toNumber x.pieces_per_pallet) = true := by
      rw [← kt.2.2]
      exact hwl0
    rw [k3.2.2.2] at hwp
    obtain ⟨ra, hca, hpa⟩ := forwardFill_ok hwp h3
    have kc := fwdCartons_keeps hca
    by_cases hl2 : ra.availability_pallets = Value.none
    · obtain ⟨n, hw2⟩ := fwdPallets_forced hl2 hppp hpa
      intro hw0
      rw [hw2] at hw0
      exact Value.noConfusion hw0
    · have hskip : fwdPallets ra (toNumber r2.availability_pieces)
          (toNumber x.pieces_per_pallet) = Except.ok ra :=
        fwdPallets_skip_filled _ _ hl2
      have hwa : ra = w := Except.ok.inj (hskip.symm.trans hpa)
      intro hw0
      rw [← hwa] at hw0
      exact hl2 hw0
  · intro h0 hg
    have hr2p : r2.availability_pieces = Value.none := by
      rw [← k3.2.2.2]
      exact h0
    rcases reverseFill_cases h2 with he | ⟨hn0, n, hr2⟩
    · have hr1p : r1.availability_pieces = Value.none := by
        rw [← he]
        exact hr2p
      have hxp : x.availability_pieces = Value.none := by
        rw [← k1.2.2.2]
        exact hr1p
      have hp0 : optPos (toNumber x.availability_pieces) = false := by
        rw [hxp]
        rfl
      have h1' : r1 = x :=
        (Except.ok.inj ((forwardFill_nopieces _ _ hp0).symm.trans h1)).symm
      have hp2 : optPos (toNumber r2.availability_pieces) = false := by
        rw [hr2p]
        rfl
      have h3' : r2 = w :=
        Except.ok.inj ((forwardFill_nopieces _ _ hp2).symm.trans h3)
      have hgc : optPos (toNumber x.availability_cartons) = true := by
        rw [← h1', ← he, h3']
        exact hg.1
      have hgp : optPos (toNumber x.piece_per_case) = true := by
        rw [← kt.1]
        exact hg.2
      obtain ⟨m, hm⟩ := reverseFill_forced1 hr1p hgc hgp h2
      have hcontra := congrArg Row.availability_pieces (he.symm.trans hm)
      rw [hr1p] at hcontra
      exact Value.noConfusion hcontra
    · rw [hr2] at hr2p
      exact Value.noConfusion hr2p
  · intro h0 hg
    have hr2p : r2.availability_pieces = Value.none := by
      rw [← k3.2.2.2]
      exact h0
    rcases reverseFill_cases h2 with he | ⟨hn0, n, hr2⟩
    · have hr1p : r1.availability_pieces = Value.none := by
        rw [← he]
        exact hr2p
      have hxp : x.availability_pieces = Value.none := by
        rw [← k1.2.2.2]
        exact hr1p
      have hp0 : optPos (toNumber x.availability_pieces) = false := by
        rw [hxp]
        rfl
      have h1' : r1 = x :=
        (Except.ok.inj ((forwardFill_nopieces _ _ hp0).symm.trans h1)).symm
      have hp2 : optPos (toNumber r2.availability_pieces) = false := by
        rw [hr2p]
        rfl
      have h3' : r2 = w :=
        Except.ok.inj ((forwardFill_nopieces _ _ hp2).symm.trans h3)
      have hgl : optPos (toNumber x.availability_pallets) = true := by
        rw [← h1', ← he, h3']
        exact hg.1
      have hgp : optPos (toNumber x.pieces_per_pallet) = true := by
        rw [← kt.2.2]
        exact hg.2
      by_cases hg1 : optPos (toNumber x.availability_cartons) = true ∧
          optPos (toNumber x.piece_per_case) = true
      · obtain ⟨m, hm⟩ := reverseFill_forced1 hr1p hg1.1 hg1.2 h2
        have hcontra := congrArg Row.availability_pieces (he.symm.trans hm)
        rw [hr1p] at hcontra
        exact Value.noConfusion hcontra
      · obtain ⟨m, hm⟩ := reverseFill_forced2 hr1p hg1 hgl hgp h2
        have hcontra := congrArg Row.availability_pieces (he.symm.trans hm)
        rw [hr1p] at hcontra
        exact Value.noConfusion hcontra
    · rw [hr2] at hr2p
      exact Value.noConfusion hr2p

theorem forwardFill_cases_cartons {r y : Row} {pieces ppc ppp : Option PyFloat}
    (h : forwardFill r pieces ppc ppp = Except.ok y) :
    y.availability_cartons = r.availability_cartons ∨
      (r.availability_cartons = Value.none ∧
        ∃ n : ℤ, y.availability_cartons = Value.int n) := by
  cases hp : optPos pieces with
  | false =>
    rw [forwardFill_nopieces _ _ hp] at h
    injection h with h
    left
    rw [← h]
  | true =>
    obtain ⟨ra, hca, hpa⟩ := forwardFill_ok hp h
    have kp := fwdPallets_keeps hpa
    rcases fwdCartons_cases hca with he | ⟨hn, hpos, n, hceil, hra⟩
    · left
      rw [kp.2.2.2.2, he]
    · right
      exact ⟨hn, n, by rw [kp.2.2.2.2, hra]⟩

theorem forwardFill_cases_pallets {r y : Row} {pieces ppc ppp : Option PyFloat}
    (h : forwardFill r pieces ppc ppp = Except.ok y) :
    y.availability_pallets = r.availability_pallets ∨
      (r.availability_pallets = Value.none ∧
        ∃ n : ℤ, y.availability_pallets = Value.int n) := by
  cases hp : optPos pieces with
  | false =>
    rw [forwardFill_nopieces _ _ hp] at h
    injection h with h
    left
    rw [← h]
  | true =>
    obtain ⟨ra, hca, hpa⟩ := forwardFill_ok hp h
    have kc := fwdCartons_keeps hca
    rcases fwdPallets_cases hpa with he | ⟨hn, hpos, n, hceil, hy2⟩
    · left
      rw [he, kc.2.2.2.2]
    · right
      refine ⟨by rw [← kc.2.2.2.2]; exact hn, n, by rw [hy2]⟩

theorem availabilityCore_writes {z w : Row}
    (h : availabilityCore z = Except.ok w) :
    (w.availability_pieces = z.availability_pieces ∨
      (z.availability_pieces = Value.none ∧
        ∃ n : ℤ, w.availability_pieces = Value.int n)) ∧
    (w.availability_cartons = z.availability_cartons ∨
      (z.availability_cartons = Value.none ∧
        ∃ n : ℤ, w.availability_cartons = Value.int n)) ∧
    (w.availability_pallets = z.availability_pallets ∨
      (z.availability_pallets = Value.none ∧
        ∃ n : ℤ, w.availability_pallets = Value.int n)) := by
  obtain ⟨r1, r2, h1, h2, h3⟩ := availabilityCore_ok h
  have k1 := forwardFill_keeps h1
  have k3 := forwardFill_keeps h3
  have k2 := reverseFill_keeps h2
  refine ⟨?_, ?_, ?_⟩
  · rcases reverseFill_cases h2 with he | ⟨hn, n, hr2⟩
    · left
      rw [k3.2.2.2, he, k1.2.2.2]
    · right
      refine ⟨by rw [← k1.2.2.2]; exact hn, n, ?_⟩
      rw [k3.2.2.2, hr2]
  · rcases forwardFill_cases_cartons h1 with he1 | ⟨hn1, n, he1⟩
    · rcases forwardFill_cases_cartons h3 with he3 | ⟨hn3, n, he3⟩
      · left
        rw [he3, k2.2.2.2.1, he1]
      · right
        exact ⟨by rw [← he1, ← k2.2.2.2.1]; exact hn3, n, he3⟩
    · rcases forwardFill_cases_cartons h3 with he3 | ⟨hn3, m, he3⟩
      · right
        exact ⟨hn1, n, by rw [he3, k2.2.2.2.1, he1]⟩
      · exfalso
        rw [k2.2.2.2.1, he1] at hn3
        exact Value.noConfusion hn3
  · rcases forwardFill_cases_pallets h1 with he1 | ⟨hn1, n, he1⟩
    · rcases forwardFill_cases_pallets h3 with he3 | ⟨hn3, n, he3⟩
      · left
        rw [he3, k2.2.2.2.2, he1]
      · right
        exact ⟨by rw [← he1, ← k2.2.2.2.2]; exact hn3, n, he3⟩
    · rcases forwardFill_cases_pallets h3 with he3 | ⟨hn3, m, he3⟩
      · right
        exact ⟨hn1, n, by rw [he3, k2.2.2.2.2, he1]⟩
      · exfalso
        rw [k2.2.2.2.2, he1] at hn3
        exact Value.noConfusion hn3

theorem numericOrAbsent_iff (v : Value) :
    numericOrAbsent v = true ↔
      (v = Value.none ∨ (toNumber v).isSome = true) := by
  unfold numericOrAbsent
  rw [Bool.or_eq_true, decide_eq_true_eq]

theorem availOk_fields {r : Row} (h : availOk r = true) :
    numericOrAbsent r.availability_pieces = true ∧
    numericOrAbsent r.availability_cartons = true ∧
    numericOrAbsent r.availability_pallets = true := by
  unfold availOk at h
  rw [Bool.and_eq_true, Bool.and_eq_true] at h
  exact ⟨h.1.1, h.1.2, h.2⟩

theorem finalizeField_numOrNone {v u : Value}
    (h : finalizeField v = Except.ok u) :
    u = Value.none ∨ (toNumber u).isSome = true := by
  rcases finalizeField_cases h with ⟨_, hu⟩ | ⟨f, _, _, hu⟩ | ⟨hk, hu⟩
  · exact Or.inl hu
  · right
    rw [hu, toNumber_int]
    rfl
  · right
    rw [hu]
    rcases hk with hk | ⟨f, hf1, _⟩
    · rw [hk]
      rfl
    · rw [hf1]
      rfl

theorem fin_keep_nonnone {v u : Value} (hs : (toNumber v).isSome = true)
    (h : finalizeField v = Except.ok u) : u ≠ Value.none := by
  rcases finalizeField_cases h with ⟨hn, _⟩ | ⟨f, _, _, hu⟩ | ⟨_, hu⟩
  · rw [hn] at hs
    simp at hs
  · rw [hu]
    intro hh
    exact Value.noConfusion hh
  · rw [hu]
    intro hh
    rw [hh] at hs
    simp at hs

theorem finalizeField_equiv {v u : Value}
    (hnum : v = Value.none ∨ (toNumber v).isSome = true)
    (h : finalizeField v = Except.ok u) :
    (u = Value.none ↔ v = Value.none) ∧
      optPos (toNumber u) = optPos (toNumber v) := by
  rcases finalizeField_cases h with ⟨hn, hu⟩ | ⟨f, hf1, hfp, hu⟩ | ⟨_, hu⟩
  · rcases hnum with hv | hs
    · constructor
      · rw [hu, hv]
      · rw [hu, hv]
    · rw [hn] at hs
      simp at hs
  · constructor
    · constructor
      · intro h0
        rw [hu] at h0
        exact Value.noConfusion h0
      · intro h0
        rw [h0] at hf1
        exact Option.noConfusion (toNumber_nothing.symm.trans hf1)
    · rw [hu, hf1, toNumber_int, optPos_some, optPos_some]
      show (Frac.ofInt f.ceil).posB = f.posB
      rw [hfp]
      exact Frac.posB_ofInt (by have := Frac.ceil_pos hfp; omega)
  · rw [hu]
    exact ⟨Iff.rfl, rfl⟩

theorem fin_fix_of_fin {w y : Row}
    (h : finalizeAvailabilityInts w = Except.ok y) :
    finalizeAvailabilityInts y = Except.ok y := by
  obtain ⟨p, c, l, hp, hc, hl, hy⟩ := finalizeRow_ok h
  rw [hy]
  exact finalizeRow_eq (finalizeField_idem hp) (finalizeField_idem hc)
    (finalizeField_idem hl)

theorem pass_self {y : Row} (ht : completePackagingTriad y = y)
    (hq : coreQuiescent y) (hfin : finalizeAvailabilityInts y = Except.ok y) :
    enginePass y = Except.ok y := by
  unfold enginePass
  rw [ht]
  exact completeAvailability_build (core_noop hq) hfin

theorem pass_availOk {x y : Row} (h : enginePass x = Except.ok y) :
    availOk y = true := by
  obtain ⟨w, hw, hf⟩ := enginePass_ok h
  obtain ⟨p, c, l, hp, hc, hl, hy⟩ := finalizeRow_ok hf
  rw [hy]
  unfold availOk
  rw [Bool.and_eq_true, Bool.and_eq_true]
  exact ⟨⟨(numericOrAbsent_iff _).mpr (finalizeField_numOrNone hp),
    (numericOrAbsent_iff _).mpr (finalizeField_numOrNone hc)⟩,
    (numericOrAbsent_iff _).mpr (finalizeField_numOrNone hl)⟩

theorem quiescent_transfer {w y : Row}
    (h1 : numericOrAbsent w.availability_pieces = true)
    (h2 : numericOrAbsent w.availability_cartons = true)
    (h3 : numericOrAbsent w.availability_pallets = true)
    (hf : finalizeAvailabilityInts w = Except.ok y)
    (hq : coreQuiescent w) : coreQuiescent y := by
  obtain ⟨p, c, l, hp, hc, hl, hy⟩ := finalizeRow_ok hf
  have e1 := finalizeField_equiv ((numericOrAbsent_iff _).mp h1) hp
  have e2 := finalizeField_equiv ((numericOrAbsent_iff _).mp h2) hc
  have e3 := finalizeField_equiv ((numericOrAbsent_iff _).mp h3) hl
  have hy1 : y.availability_pieces = p := by rw [hy]
  have hy2 : y.availability_cartons = c := by rw [hy]
  have hy3 : y.availability_pallets = l := by rw [hy]
  have hyA : y.piece_per_case = w.piece_per_case := by rw [hy]
  have hyC : y.pieces_per_pallet = w.pieces_per_pallet := by rw [hy]
  obtain ⟨q1, q2, q3, q4⟩ := hq
  refine ⟨?_, ?_, ?_, ?_⟩
  · intro ha hb
    rw [hy1, e1.2] at ha
    rw [hyA] at hb
    intro hcn
    rw [hy2] at hcn
    exact q1 ha hb (e2.1.mp hcn)
  · intro ha hb
    rw [hy1, e1.2] at ha
    rw [hyC] at hb
    intro hcn
    rw [hy3] at hcn
    exact q2 ha hb (e3.1.mp hcn)
  · intro h0 hab
    rw [hy1] at h0
    obtain ⟨ha, hb⟩ := hab
    rw [hy2, e2.2] at ha
    rw [hyA] at hb
    exact q3 (e1.1.mp h0) ⟨ha, hb⟩
  · intro h0 hab
    rw [hy1] at h0
    obtain ⟨ha, hb⟩ := hab
    rw [hy3, e3.2] at ha
    rw [hyC] at hb
    exact q4 (e1.1.mp h0) ⟨ha, hb⟩

theorem pass_fix {x y : Row} (hx : availOk x = true)
    (h : enginePass x = Except.ok y) : enginePass y = Except.ok y := by
  obtain ⟨w, hw, hf⟩ := enginePass_ok h
  have ktr := triad_avail_keeps x
  have hqw : coreQuiescent w := core_quiescent_post hw
  obtain ⟨hx1, hx2, hx3⟩ := availOk_fields hx
  have hwn := availabilityCore_writes hw
  have hn1 : numericOrAbsent w.availability_pieces = true := by
    rcases hwn.1 with he | ⟨_, n, he⟩
    · rw [he, ktr.1]
      exact hx1
    · rw [he]
      rfl
  have hn2 : numericOrAbsent w.availability_cartons = true := by
    rcases hwn.2.1 with he | ⟨_, n, he⟩
    · rw [he, ktr.2.1]
      exact hx2
    · rw [he]
      rfl
  have hn3 : numericOrAbsent w.availability_pallets = true := by
    rcases hwn.2.2 with he | ⟨_, n, he⟩
    · rw [he, ktr.2.2]
      exact hx3
    · rw [he]
      rfl
  have hqy : coreQuiescent y := quiescent_transfer hn1 hn2 hn3 hf hqw
  have kt1 := availabilityCore_triad_keeps hw
  have kt2 := finalizeRow_triad_keeps hf
  obtain ⟨g1, g2, g3⟩ := triad_quiescent x
  have hty : completePackagingTriad y = y :=
    triad_noop_of_fields (kt2.1.trans kt1.1) (kt2.2.1.trans kt1.2.1)
      (kt2.2.2.trans kt1.2.2) g1 g2 g3
  exact pass_self hty hqy (fin_fix_of_fin hf)

theorem stable_exit {x y : Row} (h : enginePass x = Except.ok y)
    (he : rowEq y x = true) : enginePass y = Except.ok y := by
  obtain ⟨w, hw, hf⟩ := enginePass_ok h
  obtain ⟨eA, eB, eC, eP, eCa, ePa⟩ := rowEq_fields he
  have kt1 := availabilityCore_triad_keeps hw
  have kt2 := finalizeRow_triad_keeps hf
  obtain ⟨p, c, l, hp, hc, hl, hy⟩ := finalizeRow_ok hf
  have hyP : y.availability_pieces = p := by rw [hy]
  have hyCa : y.availability_cartons = c := by rw [hy]
  have hyPa : y.availability_pallets = l := by rw [hy]
  have hgc : ¬triadGC x := by
    intro hg
    have hwr := triad_C_write hg
    have hyC2 : y.pieces_per_pallet = (completePackagingTriad x).pieces_per_pallet :=
      kt2.2.2.trans kt1.2.2
    rw [hyC2, hwr, hg.2.2, pyEq_float_none] at eC
    exact Bool.noConfusion eC
  have hgb : ¬triadGB x := by
    intro hg
    have hwr := triad_B_write hg
    have hyB2 : y.case_per_pallet = (completePackagingTriad x).case_per_pallet :=
      kt2.2.1.trans kt1.2.1
    rw [hyB2, hwr, hg.2.2, pyEq_float_none] at eB
    exact Bool.noConfusion eB
  have hga : ¬triadGA x := by
    intro hg
    have hwr := triad_A_write hg
    have hyA2 : y.piece_per_case = (completePackagingTriad x).piece_per_case :=
      kt2.1.trans kt1.1
    rw [hyA2, hwr, hg.2.2, pyEq_float_none] at eA
    exact Bool.noConfusion eA
  have ht0 : completePackagingTriad x = x := triad_noop hgc hgb hga
  rw [ht0] at hw
  have hwc := availabilityCore_writes hw
  have wP : w.availability_pieces = x.availability_pieces := by
    rcases hwc.1 with he1 | ⟨hn0, n, he1⟩
    · exact he1
    · exfalso
      rw [he1] at hp
      rcases finalizeField_cases hp with ⟨hnn, _⟩ | ⟨f, _, _, hpv⟩ | ⟨_, hpv⟩
      · rw [toNumber_int] at hnn
        exact Option.noConfusion hnn
      · rw [hyP, hpv, hn0, pyEq_int_none] at eP
        exact Bool.noConfusion eP
      · rw [hyP, hpv, hn0, pyEq_int_none] at eP
        exact Bool.noConfusion eP
  have wC : w.availability_cartons = x.availability_cartons := by
    rcases hwc.2.1 with he1 | ⟨hn0, n, he1⟩
    · exact he1
    · exfalso
      rw [he1] at hc
      rcases finalizeField_cases hc with ⟨hnn, _⟩ | ⟨f, _, _, hpv⟩ | ⟨_, hpv⟩
      · rw [toNumber_int] at hnn
        exact Option.noConfusion hnn
      · rw [hyCa, hpv, hn0, pyEq_int_none] at eCa
        exact Bool.noConfusion eCa
      · rw [hyCa, hpv, hn0, pyEq_int_none] at eCa
        exact Bool.noConfusion eCa
  have wL : w.availability_pallets = x.availability_pallets := by
    rcases hwc.2.2 with he1 | ⟨hn0, n, he1⟩
    · exact he1
    · exfalso
      rw [he1] at hl
      rcases finalizeField_cases hl with ⟨hnn, _⟩ | ⟨f, _, _, hpv⟩ | ⟨_, hpv⟩
      · rw [toNumber_int] at hnn
        exact Option.noConfusion hnn
      · rw [hyPa, hpv, hn0, pyEq_int_none] at ePa
        exact Bool.noConfusion ePa
      · rw [hyPa, hpv, hn0, pyEq_int_none] at ePa
        exact Bool.noConfusion ePa
  have wA : w.piece_per_case = x.piece_per_case := by
    rw [kt1.1, ht0]
  have wB : w.case_per_pallet = x.case_per_pallet := by
    rw [kt1.2.1, ht0]
  have wCC : w.pieces_per_pallet = x.pieces_per_pallet := by
    rw [kt1.2.2, ht0]
  have hwx : w = x := rowExt wA wB wCC wP wC wL
  rw [hwx] at hw hf hp hc hl
  have hqx : coreQuiescent x := core_quiescent_post hw
  have hn1 : numericOrAbsent x.availability_pieces = true := by
    rcases finalizeField_cases hp with ⟨hnn, hpv⟩ | ⟨f, hf1, _, _⟩ | ⟨hk, _⟩
    · by_cases hx0 : x.availability_pieces = Value.none
      · exact (numericOrAbsent_iff _).mpr (Or.inl hx0)
      · exfalso
        rw [hyP, hpv, pyEq_none_val hx0] at eP
        exact Bool.noConfusion eP
    · exact (numericOrAbsent_iff _).mpr (Or.inr (by rw [hf1]; rfl))
    · rcases hk with hk | ⟨f, hf1, _⟩
      · exact (numericOrAbsent_iff _).mpr (Or.inr (by rw [hk]; rfl))
      · exact (numericOrAbsent_iff _).mpr (Or.inr (by rw [hf1]; rfl))
  have hn2 : numericOrAbsent x.availability_cartons = true := by
    rcases finalizeField_cases hc with ⟨hnn, hpv⟩ | ⟨f, hf1, _, _⟩ | ⟨hk, _⟩
    · by_cases hx0 : x.availability_cartons = Value.none
      · exact (numericOrAbsent_iff _).mpr (Or.inl hx0)
      · exfalso
        rw [hyCa, hpv, pyEq_none_val hx0] at eCa
        exact Bool.noConfusion eCa
    · exact (numericOrAbsent_iff _).mpr (Or.inr (by rw [hf1]; rfl))
    · rcases hk with hk | ⟨f, hf1, _⟩
      · exact (numericOrAbsent_iff _).mpr (Or.inr (by rw [hk]; rfl))
      · exact (numericOrAbsent_iff _).mpr (Or.inr (by rw [hf1]; rfl))
  have hn3 : numericOrAbsent x.availability_pallets = true := by
    rcases finalizeField_cases hl with ⟨hnn, hpv⟩ | ⟨f, hf1, _, _⟩ | ⟨hk, _⟩
    · by_cases hx0 : x.availability_pallets = Value.none
      · exact (numericOrAbsent_iff _).mpr (Or.inl hx0)
      · exfalso
        rw [hyPa, hpv, pyEq_none_val hx0] at ePa
        exact Bool.noConfusion ePa
    · exact (numericOrAbsent_iff _).mpr (Or.inr (by rw [hf1]; rfl))
    · rcases hk with hk | ⟨f, hf1, _⟩
      · exact (numericOrAbsent_iff _).mpr (Or.inr (by rw [hk]; rfl))
      · exact (numericOrAbsent_iff _).mpr (Or.inr (by rw [hf1]; rfl))
  have hqy : coreQuiescent y := quiescent_transfer hn1 hn2 hn3 hf hqx
  have hty : completePackagingTriad y = y := by
    refine triad_noop_of_fields ?_ ?_ ?_ hgc hgb hga
    · rw [kt2.1, kt1.1, ht0]
    · rw [kt2.2.1, kt1.2.1, ht0]
    · rw [kt2.2.2, kt1.2.2, ht0]
  exact pass_self hty hqy (fin_fix_of_fin hf)

theorem loop_fix {z : Row} (hz : enginePass z = Except.ok z) :
    ∀ n, engineLoop n z = Except.ok z := by
  intro n
  induction n with
  | zero => rfl
  | succ n ih =>
    unfold engineLoop
    rw [hz]
    simp only [exceptBind_ok]
    by_cases hr : rowEq z z = true
    · rw [if_pos hr]
      rfl
    · rw [if_neg hr]
      exact ih

theorem refLoop_fix {z : Row} (hz : referencePass z = Except.ok z) :
    ∀ n, referenceLoop n z = Except.ok z := by
  intro n
  induction n with
  | zero => rfl
  | succ n ih =>
    unfold referenceLoop
    rw [hz]
    simp only [exceptBind_ok]
    by_cases hr : rowEq z z = true
    · rw [if_pos hr]
      rfl
    · rw [if_neg hr]
      exact ih

theorem engineLoop_succ_cases {n : ℕ} {x y : Row}
    (h : engineLoop (n + 1) x = Except.ok y) :
    ∃ z, enginePass x = Except.ok z ∧
      ((rowEq z x = true ∧ y = z) ∨
        (rowEq z x = false ∧ engineLoop n z = Except.ok y)) := by
  unfold engineLoop at h
  cases hp : enginePass x with
  | error e =>
    rw [hp] at h
    simp at h
  | ok z =>
    rw [hp] at h
    simp only [exceptBind_ok] at h
    by_cases hr : rowEq z x = true
    · rw [if_pos hr] at h
      have h' : Except.ok z = Except.ok y := h
      exact ⟨z, rfl, Or.inl ⟨hr, (Except.ok.inj h').symm⟩⟩
    · rw [if_neg hr] at h
      exact ⟨z, rfl, Or.inr ⟨Bool.eq_false_iff.mpr hr, h⟩⟩

theorem dsField_spec {v w : Value} (ht : tameVal v = true)
    (h : finalizeField (doubleField v) = Except.ok w) :
    (isValidPositiveNumber v = true →
      w = ceilIfPos (doubleField v) ∧ isAbsentOrPosInt w = true) ∧
    (toNumber v = Option.none → w = Value.none) ∧
    (isValidPositiveNumber v = false → (toNumber v).isSome = true →
      w = v) := by
  rw [isValidPositiveNumber_eq]
  cases hn : toNumber v with
  | none =>
    have hd : doubleField v = v := by
      unfold doubleField
      rw [hn]
    rw [hd, finalizeField_nonnum hn] at h
    injection h with h
    refine ⟨fun hp => absurd hp (by decide), fun _ => h.symm, fun _ hs => ?_⟩
    simp at hs
  | some f =>
    rw [tameVal_def, hn] at ht
    cases f with
    | inf => exact absurd ht (by decide)
    | neginf => exact absurd ht (by decide)
    | nan => exact absurd ht (by decide)
    | finite q =>
      cases hq : q.posB with
      | true =>
        have hd : doubleField v =
            Value.float (PyFloat.finite (q.mul (Frac.ofInt 2))) := by
          unfold doubleField
          rw [hn]
          simp [PyFloat.pos, hq, PyFloat.mul]
        have hq2 : (q.mul (Frac.ofInt 2)).posB = true :=
          Frac.mul_posB hq (Frac.posB_ofInt (by norm_num))
        have hfin : finalizeField (doubleField v) =
            Except.ok (Value.int (q.mul (Frac.ofInt 2)).ceil) := by
          rw [hd]
          exact finalizeField_pos rfl hq2
        rw [hfin] at h
        injection h with h
        refine ⟨fun _ => ⟨?_, ?_⟩, fun h2 => ?_, fun hf _ => ?_⟩
        · rw [hd, ← h]
          rfl
        · rw [← h]
          exact isAbsentOrPosInt_int (Frac.ceil_pos hq2)
        · exact Option.noConfusion h2
        · rw [optPos_some] at hf
          simp [PyFloat.pos, hq] at hf
      | false =>
        have hd : doubleField v = v := by
          unfold doubleField
          rw [hn]
          simp [PyFloat.pos, hq]
        have hle : q.le0B = true := by
          rw [Frac.le0B_eq, hq]
          rfl
        rw [hd, finalizeField_nonpos hn hle] at h
        injection h with h
        refine ⟨fun hp => ?_, fun h2 => ?_, fun _ _ => h.symm⟩
        · rw [optPos_some] at hp
          simp [PyFloat.pos, hq] at hp
        · exact Option.noConfusion h2

/-- C4: triad completion, for each of the three directions, fills an absent
target from two valid positive sources with the exact float product or
quotient of the coerced source values (no integer rounding), and never
writes a target that is already populated. -/
theorem C4_triad_two_of_three (r : Row) :
    (r.pieces_per_pallet = Value.none →
      isValidPositiveNumber r.piece_per_case = true →
      isValidPositiveNumber r.case_per_pallet = true →
      (completePackagingTriad r).pieces_per_pallet =
        Value.float (optMul (toNumber r.piece_per_case) (toNumber r.case_per_pallet))) ∧
    (r.case_per_pallet = Value.none →
      isValidPositiveNumber r.piece_per_case = true →
      isValidPositiveNumber r.pieces_per_pallet = true →
      (completePackagingTriad r).case_per_pallet =
        Value.float (optDiv (toNumber r.pieces_per_pallet) (toNumber r.piece_per_case))) ∧
    (r.piece_per_case = Value.none →
      isValidPositiveNumber r.case_per_pallet = true →
      isValidPositiveNumber r.pieces_per_pallet = true →
      (completePackagingTriad r).piece_per_case =
        Value.float (optDiv (toNumber r.pieces_per_pallet) (toNumber r.case_per_pallet))) ∧
    (r.pieces_per_pallet ≠ Value.none →
      (completePackagingTriad r).pieces_per_pallet = r.pieces_per_pallet) ∧
    (r.case_per_pallet ≠ Value.none →
      (completePackagingTriad r).case_per_pallet = r.case_per_pallet) ∧
    (r.piece_per_case ≠ Value.none →
      (completePackagingTriad r).piece_per_case = r.piece_per_case) := by
  unfold completePackagingTriad
  dsimp only
  rw [isValidPositiveNumber_eq, isValidPositiveNumber_eq, isValidPositiveNumber_eq]
  refine ⟨?_, ?_, ?_, ?_, ?_, ?_⟩
  · intro hC hA hB
    rw [(triadStepA_keeps _ _ _).2.1, (triadStepB_keeps _ _ _).2.1,
      triadStepC_write hA hB hC]
  · intro hB hA hC
    rw [(triadStepA_keeps _ _ _).1, triadStepC_skip _ _ (ne_none_of_optPos hC),
      triadStepB_write hA hC hB]
  · intro hA hB hC
    rw [triadStepC_skip _ _ (ne_none_of_optPos hC)]
    have hkeep : (triadStepB r (toNumber r.piece_per_case)
        (toNumber r.pieces_per_pallet)).piece_per_case = Value.none := by
      rw [(triadStepB_keeps _ _ _).1, hA]
    rw [triadStepA_write hB hC hkeep]
  · intro hC
    rw [(triadStepA_keeps _ _ _).2.1, (triadStepB_keeps _ _ _).2.1,
      triadStepC_skip _ _ hC]
  · intro hB
    have h1 := (triadStepC_keeps r (toNumber r.piece_per_case)
      (toNumber r.case_per_pallet)).2.1
    rw [(triadStepA_keeps _ _ _).1, triadStepB_skip _ _ (by rw [h1]; exact hB), h1]
  · intro hA
    have h1 := (triadStepC_keeps r (toNumber r.piece_per_case)
      (toNumber r.case_per_pallet)).1
    have h2 := (triadStepB_keeps (triadStepC r (toNumber r.piece_per_case)
      (toNumber r.case_per_pallet)) (toNumber r.piece_per_case)
      (toNumber r.pieces_per_pallet)).1
    rw [triadStepA_skip _ _ (by rw [h2, h1]; exact hA), h2, h1]

/-- C4 witness: Scenario A, input piece_per_case 12 and case_per_pallet 10
gains pieces_per_pallet 120 (exactly, as a float). -/
theorem C4_witness :
    (completePackagingTriad
      { piece_per_case := Value.int 12, case_per_pallet := Value.int 10 }).pieces_per_pallet
      = Value.float (PyFloat.finite (Frac.ofInt 120)) := by
  have h := (C4_triad_two_of_three
    { piece_per_case := Value.int 12, case_per_pallet := Value.int 10 }).1
    (by decide) (by decide) (by decide)
  rw [h]; decide

/-- C5: availability derivation is staged: forward fills of cartons and
pallets from a valid positive pieces (each gated on an absent target and a
valid positive divisor), reverse derivation of an absent pieces preferring
cartons over pallets, and a cross-fill of still absent fields from the
newly derived pieces.  Conclusions equate the output field with the
rounded-up quotient or product actually computed by the source. -/
theorem C5_availability_stages (r out : Row)
    (h : completeAvailability r = Except.ok out) :
    (isValidPositiveNumber r.availability_pieces = true →
      r.availability_cartons = Value.none →
      isValidPositiveNumber r.piece_per_case = true →
      Except.ok out.availability_cartons =
        ((optDiv (toNumber r.availability_pieces)
          (toNumber r.piece_per_case)).ceilInt).map Value.int) ∧
    (isValidPositiveNumber r.availability_pieces = true →
      r.availability_pallets = Value.none →
      isValidPositiveNumber r.pieces_per_pallet = true →
      Except.ok out.availability_pallets =
        ((optDiv (toNumber r.availability_pieces)
          (toNumber r.pieces_per_pallet)).ceilInt).map Value.int) ∧
    (r.availability_pieces = Value.none →
      isValidPositiveNumber r.availability_cartons = true →
      isValidPositiveNumber r.piece_per_case = true →
      Except.ok out.availability_pieces =
        ((optMul (toNumber r.availability_cartons)
          (toNumber r.piece_per_case)).ceilInt).map Value.int) ∧
    (r.availability_pieces = Value.none →
      ¬(isValidPositiveNumber r.availability_cartons = true ∧
        isValidPositiveNumber r.piece_per_case = true) →
      isValidPositiveNumber r.availability_pallets = true →
      isValidPositiveNumber r.pieces_per_pallet = true →
      Except.ok out.availability_pieces =
        ((optMul (toNumber r.availability_pallets)
          (toNumber r.pieces_per_pallet)).ceilInt).map Value.int) ∧
    (r.availability_pieces = Value.none →
      isValidPositiveNumber r.availability_cartons = true →
      isValidPositiveNumber r.piece_per_case = true →
      r.availability_pallets = Value.none →
      isValidPositiveNumber r.pieces_per_pallet = true →
      Except.ok out.availability_pallets =
        crossPalletsValue r.availability_cartons r.piece_per_case
          r.pieces_per_pallet) := by
  obtain ⟨w, hcore, hfin⟩ := completeAvailability_ok h
  obtain ⟨r1, r2, h1, h2, h3⟩ := availabilityCore_ok hcore
  obtain ⟨p, c, l, hfp, hfc, hfl, hy⟩ := finalizeRow_ok hfin
  refine ⟨?_, ?_, ?_, ?_, ?_⟩
  · intro hvp hnc hvd
    rw [isValidPositiveNumber_eq] at hvp hvd
    cases hceil : (optDiv (toNumber r.availability_pieces)
        (toNumber r.piece_per_case)).ceilInt with
    | error e =>
      rw [forwardFill_run _ _ hvp, fwdCartons_err hnc hvd hceil] at h1
      simp at h1
    | ok n =>
      obtain ⟨ra, hca, hpa⟩ := forwardFill_ok hvp h1
      rw [fwdCartons_write hnc hvd hceil] at hca
      injection hca with hca
      have hra : ra.availability_cartons = Value.int n := by rw [← hca]
      have hr1c : r1.availability_cartons = Value.int n := by
        rw [(fwdPallets_keeps hpa).2.2.2.2, hra]
      have hr2c : r2.availability_cartons = Value.int n := by
        rw [(reverseFill_keeps h2).2.2.2.1, hr1c]
      have hwc : w.availability_cartons = Value.int n := by
        rw [(forwardFill_avail_pres h3).1 (by rw [hr2c]; intro hx; cases hx),
          hr2c]
      rw [hwc, finalizeField_int_any] at hfc
      injection hfc with hfc
      have hout : out.availability_cartons = Value.int n := by
        rw [hy]
        exact hfc.symm
      rw [hout]
      rfl
  · intro hvp hnl hvd
    rw [isValidPositiveNumber_eq] at hvp hvd
    obtain ⟨ra, hca, hpa⟩ := forwardFill_ok hvp h1
    have hral : ra.availability_pallets = Value.none := by
      rw [(fwdCartons_keeps hca).2.2.2.2, hnl]
    cases hceil : (optDiv (toNumber r.availability_pieces)
        (toNumber r.pieces_per_pallet)).ceilInt with
    | error e =>
      rw [fwdPallets_err hral hvd hceil] at hpa
      cases hpa
    | ok m =>
      rw [fwdPallets_write hral hvd hceil] at hpa
      injection hpa with hpa
      have hr1l : r1.availability_pallets = Value.int m := by rw [← hpa]
      have hr2l : r2.availability_pallets = Value.int m := by
        rw [(reverseFill_keeps h2).2.2.2.2, hr1l]
      have hwl : w.availability_pallets = Value.int m := by
        rw [(forwardFill_avail_pres h3).2 (by rw [hr2l]; intro hx; cases hx),
          hr2l]
      rw [hwl, finalizeField_int_any] at hfl
      injection hfl with hfl
      have hout : out.availability_pallets = Value.int m := by
        rw [hy]
        exact hfl.symm
      rw [hout]
      rfl
  · intro h0 hvc hvd
    rw [isValidPositiveNumber_eq] at hvc hvd
    have hnp : optPos (toNumber r.availability_pieces) = false := by
      rw [h0]
      rfl
    have hr1 : r1 = r := by
      rw [forwardFill_nopieces _ _ hnp] at h1
      injection h1 with h1
      exact h1.symm
    rw [hr1] at h2
    cases hceil : (optMul (toNumber r.availability_cartons)
        (toNumber r.piece_per_case)).ceilInt with
    | error e =>
      rw [reverseFill_cartons_err _ _ h0 hvc hvd hceil] at h2
      cases h2
    | ok n =>
      rw [reverseFill_cartons _ _ h0 hvc hvd hceil] at h2
      injection h2 with h2
      have hr2p : r2.availability_pieces = Value.int n := by rw [← h2]
      have hwp : w.availability_pieces = Value.int n := by
        rw [(forwardFill_keeps h3).2.2.2, hr2p]
      rw [hwp, finalizeField_int_any] at hfp
      injection hfp with hfp
      have hout : out.availability_pieces = Value.int n := by
        rw [hy]
        exact hfp.symm
      rw [hout]
      rfl
  · intro h0 hno hvl hvd
    simp only [isValidPositiveNumber_eq] at hno
    rw [isValidPositiveNumber_eq] at hvl hvd
    have hnp : optPos (toNumber r.availability_pieces) = false := by
      rw [h0]
      rfl
    have hr1 : r1 = r := by
      rw [forwardFill_nopieces _ _ hnp] at h1
      injection h1 with h1
      exact h1.symm
    rw [hr1] at h2
    cases hceil : (optMul (toNumber r.availability_pallets)
        (toNumber r.pieces_per_pallet)).ceilInt with
    | error e =>
      rw [reverseFill_pallets_err h0 hno hvl hvd hceil] at h2
      cases h2
    | ok n =>
      rw [reverseFill_pallets h0 hno hvl hvd hceil] at h2
      injection h2 with h2
      have hr2p : r2.availability_pieces = Value.int n := by rw [← h2]
      have hwp : w.availability_pieces = Value.int n := by
        rw [(forwardFill_keeps h3).2.2.2, hr2p]
      rw [hwp, finalizeField_int_any] at hfp
      injection hfp with hfp
      have hout : out.availability_pieces = Value.int n := by
        rw [hy]
        exact hfp.symm
      rw [hout]
      rfl
  · intro h0 hvc hvd hnl hvppp
    rw [isValidPositiveNumber_eq] at hvc hvd hvppp
    have hnp : optPos (toNumber r.availability_pieces) = false := by
      rw [h0]
      rfl
    have hr1 : r1 = r := by
      rw [forwardFill_nopieces _ _ hnp] at h1
      injection h1 with h1
      exact h1.symm
    rw [hr1] at h2
    cases hceil : (optMul (toNumber r.availability_cartons)
        (toNumber r.piece_per_case)).ceilInt with
    | error e =>
      rw [reverseFill_cartons_err _ _ h0 hvc hvd hceil] at h2
      cases h2
    | ok n =>
      rw [reverseFill_cartons _ _ h0 hvc hvd hceil] at h2
      injection h2 with h2
      have hr2p : r2.availability_pieces = Value.int n := by rw [← h2]
      have hr2c : r2.availability_cartons = r.availability_cartons := by
        rw [← h2]
      have hr2l : r2.availability_pallets = Value.none := by
        rw [← h2]
        exact hnl
      have hpos : optPos (toNumber r2.availability_pieces) = true := by
        rw [hr2p]
        simp only [toNumber_int, optPos_some, PyFloat.pos]
        exact Frac.posB_ofInt (by
          have := optMul_ceil_pos hvc hvd hceil
          omega)
      rw [forwardFill_run _ _ hpos,
        fwdCartons_skip_filled _ _ (by rw [hr2c]; exact ne_none_of_optPos hvc)]
        at h3
      simp only [exceptBind_ok] at h3
      cases hceil2 : (optDiv (toNumber r2.availability_pieces)
          (toNumber r.pieces_per_pallet)).ceilInt with
      | error e =>
        rw [fwdPallets_err hr2l hvppp hceil2] at h3
        cases h3
      | ok m =>
        rw [fwdPallets_write hr2l hvppp hceil2] at h3
        injection h3 with h3
        have hwl : w.availability_pallets = Value.int m := by rw [← h3]
        rw [hwl, finalizeField_int_any] at hfl
        injection hfl with hfl
        have hout : out.availability_pallets = Value.int m := by
          rw [hy]
          exact hfl.symm
        rw [hout]
        unfold crossPalletsValue
        rw [hceil]
        simp only [exceptBind_ok]
        rw [hr2p] at hceil2
        simp only [toNumber_int] at hceil2
        rw [hceil2]
        rfl

/-- C5 witness: Scenario B, input availability_pieces 130 and
piece_per_case 12 gains availability_cartons 11. -/
theorem C5_witness : Row.availability_cartons outB = Value.int 11 := by
  have h := (C5_availability_stages rowB outB (by decide)).1
    (by decide) (by decide) (by decide)
  have h2 : ((optDiv (toNumber rowB.availability_pieces)
      (toNumber rowB.piece_per_case)).ceilInt).map Value.int
      = Except.ok (Value.int 11) := by decide
  exact Except.ok.inj (h.trans h2)

/-- C1 fails as stated: at Scenario D, the input record with
availability_pieces "0" and piece_per_case 12 is returned by the engine
with availability_pieces still the string "0" (only non-numeric values are
forced to None at finalization; numeric non-positive values are kept), so
an availability field of the output is neither absent nor a positive
integer. -/
theorem C1_counterexample :
    applyPackagingMath
      { availability_pieces := Value.str "0", piece_per_case := Value.int 12 }
      = Except.ok { availability_pieces := Value.str "0", piece_per_case := Value.int 12 } ∧
    isAbsentOrPosInt
      (Row.availability_pieces
        { availability_pieces := Value.str "0", piece_per_case := Value.int 12 }) = false := by
  constructor
  · decide
  · decide

/-- C1 amended: for a tame input record (every field coerces to a finite
number or to absent), every availability field of the engine's output is
either absent-or-a-positive-integer, or is the input field kept verbatim,
and in the latter case that input field was numeric but not a valid
positive number (finalization clears only non-numeric junk; numeric
non-positive values such as the string "0" are kept, contrary to the
claim's "forced to absent"). -/
theorem C1_availability_contract (r out : Row) (htame : tameRow r = true)
    (h : applyPackagingMath r = Except.ok out) :
    (isAbsentOrPosInt out.availability_pieces = true ∨
      (out.availability_pieces = r.availability_pieces ∧
        isValidPositiveNumber r.availability_pieces = false ∧
        (toNumber r.availability_pieces).isSome = true)) ∧
    (isAbsentOrPosInt out.availability_cartons = true ∨
      (out.availability_cartons = r.availability_cartons ∧
        isValidPositiveNumber r.availability_cartons = false ∧
        (toNumber r.availability_cartons).isSome = true)) ∧
    (isAbsentOrPosInt out.availability_pallets = true ∨
      (out.availability_pallets = r.availability_pallets ∧
        isValidPositiveNumber r.availability_pallets = false ∧
        (toNumber r.availability_pallets).isSome = true)) := by
  have h3 : engineLoop (2 + 1) r = Except.ok out := h
  refine engineLoop_estab
    (fun x => tameRow x = true ∧
      (isAbsentOrPosInt x.availability_pieces = true ∨
        (x.availability_pieces = r.availability_pieces ∧
          isValidPositiveNumber r.availability_pieces = false ∧
          (toNumber r.availability_pieces).isSome = true)) ∧
      (isAbsentOrPosInt x.availability_cartons = true ∨
        (x.availability_cartons = r.availability_cartons ∧
          isValidPositiveNumber r.availability_cartons = false ∧
          (toNumber r.availability_cartons).isSome = true)) ∧
      (isAbsentOrPosInt x.availability_pallets = true ∨
        (x.availability_pallets = r.availability_pallets ∧
          isValidPositiveNumber r.availability_pallets = false ∧
          (toNumber r.availability_pallets).isSome = true)))
    ?_ h3 ?_ |>.2
  · intro x z hp hR
    obtain ⟨htx, hQp, hQc, hQl⟩ := hR
    obtain ⟨tf1, tf2, tf3, tf4, tf5, tf6⟩ := tameRow_fields htx
    obtain ⟨cp, cc, cl⟩ := enginePass_avail_classify htx hp
    exact ⟨enginePass_tame htx hp, Qfield_step tf4 hQp cp,
      Qfield_step tf5 hQc cc, Qfield_step tf6 hQl cl⟩
  · intro z hp
    obtain ⟨tf1, tf2, tf3, tf4, tf5, tf6⟩ := tameRow_fields htame
    obtain ⟨cp, cc, cl⟩ := enginePass_avail_classify htame hp
    exact ⟨enginePass_tame htame hp, Qfield_first tf4 cp,
      Qfield_first tf5 cc, Qfield_first tf6 cl⟩

/-- C1 amended witness: at Scenario D, the engine keeps availability_pieces
as the numeric-but-not-positive string "0" (the second disjunct), deriving
nothing from it. -/
theorem C1_witness :
    isAbsentOrPosInt
        (Row.availability_pieces
          { availability_pieces := Value.str "0",
            piece_per_case := Value.int 12 }) = true ∨
      (Row.availability_pieces
          { availability_pieces := Value.str "0",
            piece_per_case := Value.int 12 }
        = Row.availability_pieces
            { availability_pieces := Value.str "0",
              piece_per_case := Value.int 12 } ∧
        isValidPositiveNumber
          (Row.availability_pieces
            { availability_pieces := Value.str "0",
              piece_per_case := Value.int 12 }) = false ∧
        (toNumber
          (Row.availability_pieces
            { availability_pieces := Value.str "0",
              piece_per_case := Value.int 12 })).isSome = true) :=
  (C1_availability_contract
    { availability_pieces := Value.str "0", piece_per_case := Value.int 12 }
    { availability_pieces := Value.str "0", piece_per_case := Value.int 12 }
    (by decide) (by decide)).1

/-- C3: the claim (coercion total and finite, no engine operation raises on
malformed numeric input) is the documented intent, but the code violates it
at the failing input "inf": `_to_number` returns the non-finite float inf,
`_ceil_int` raises OverflowError on it instead of returning None as its
docstring promises, and the engine therefore raises on a record whose
availability_pieces is the string "inf" (and likewise ValueError for
"nan"). -/
theorem C3_coercion_inf_escapes :
    toNumber (Value.str "inf") = some PyFloat.inf ∧
    ceilInt (Value.str "inf") = Except.error () ∧
    applyPackagingMath { availability_pieces := Value.str "inf" } = Except.error () ∧
    applyPackagingMath { availability_pieces := Value.str "nan" } = Except.error () := by
  refine ⟨by decide, by decide, by decide, by decide⟩

/-- C6 fails as stated: on a record whose availability_pieces holds
non-numeric text while cartons and piece_per_case are valid, the engine
(which finalizes at the end of every pass) clears the junk after pass one
and reverse-derives pieces in pass two, while the finalize-once reference
program of the spec stops after an unchanged first pass and only clears the
junk, deriving nothing. -/
theorem C6_counterexample :
    applyPackagingMath
      { availability_pieces := Value.str "abc", availability_cartons := Value.int 5,
        piece_per_case := Value.int 12 }
      = Except.ok
        { availability_pieces := Value.int 60, availability_cartons := Value.int 5,
          piece_per_case := Value.int 12 } ∧
    referenceEngine
      { availability_pieces := Value.str "abc", availability_cartons := Value.int 5,
        piece_per_case := Value.int 12 }
      = Except.ok
        { availability_pieces := Value.none, availability_cartons := Value.int 5,
          piece_per_case := Value.int 12 } ∧
    ({ availability_pieces := Value.int 60, availability_cartons := Value.int 5,
       piece_per_case := Value.int 12 : Row }
      ≠ { availability_pieces := Value.none, availability_cartons := Value.int 5,
          piece_per_case := Value.int 12 : Row }) := by
  refine ⟨by decide, by decide, by decide⟩

/-- C7 fails as stated: `apply_double_stackable` ends by forcing integer
availability fields, so a field holding non-numeric text (not a valid
positive number) is affected after all, being cleared to None. -/
theorem C7_counterexample :
    applyDoubleStackable { availability_pieces := Value.str "abc" }
      = Except.ok { availability_pieces := Value.none } ∧
    isValidPositiveNumber (Value.str "abc") = false ∧
    (Value.str "abc" ≠ Value.none) := by
  refine ⟨by decide, by decide, by decide⟩

/-- C10: triad fields are never sanitized: any non-absent value in
piece_per_case, case_per_pallet or pieces_per_pallet, including zero,
negative numbers and non-numeric text, is returned by the engine exactly as
it came in (every triad write is guarded by the field being absent, and
integer finalization touches only the availability fields), so an invalid
triad value permanently blocks that field from being derived. -/
theorem C10_triad_never_sanitized (r out : Row)
    (h : applyPackagingMath r = Except.ok out) :
    (r.piece_per_case ≠ Value.none → out.piece_per_case = r.piece_per_case) ∧
    (r.case_per_pallet ≠ Value.none → out.case_per_pallet = r.case_per_pallet) ∧
    (r.pieces_per_pallet ≠ Value.none →
      out.pieces_per_pallet = r.pieces_per_pallet) := by
  exact ⟨fun hne => engine_pres_A h hne, fun hne => engine_pres_B h hne,
    fun hne => engine_pres_C h hne⟩

/-- C10 witness: non-numeric text in piece_per_case survives the engine
unchanged even though the other two triad members would determine it. -/
theorem C10_witness :
    Row.piece_per_case
        { piece_per_case := Value.str "x", case_per_pallet := Value.int 2,
          pieces_per_pallet := Value.int 6 }
      = Value.str "x" :=
  (C10_triad_never_sanitized
    { piece_per_case := Value.str "x", case_per_pallet := Value.int 2,
      pieces_per_pallet := Value.int 6 }
    { piece_per_case := Value.str "x", case_per_pallet := Value.int 2,
      pieces_per_pallet := Value.int 6 }
    (by decide)).1 (by decide)

/-- C2: authority: a field populated with a valid positive number on input
is returned numerically unchanged by the engine: a triad field is returned
identically, an availability field is at most rounded up to the integer
ceiling of its coerced value; a populated field is never overwritten with a
derived value. -/
theorem C2_authority (r out : Row) (h : applyPackagingMath r = Except.ok out) :
    (isValidPositiveNumber r.piece_per_case = true →
      out.piece_per_case = r.piece_per_case) ∧
    (isValidPositiveNumber r.case_per_pallet = true →
      out.case_per_pallet = r.case_per_pallet) ∧
    (isValidPositiveNumber r.pieces_per_pallet = true →
      out.pieces_per_pallet = r.pieces_per_pallet) ∧
    (isValidPositiveNumber r.availability_pieces = true →
      out.availability_pieces = ceilIfPos r.availability_pieces) ∧
    (isValidPositiveNumber r.availability_cartons = true →
      out.availability_cartons = ceilIfPos r.availability_cartons) ∧
    (isValidPositiveNumber r.availability_pallets = true →
      out.availability_pallets = ceilIfPos r.availability_pallets) := by
  exact ⟨fun hv => engine_pres_A h (valid_ne_none hv),
    fun hv => engine_pres_B h (valid_ne_none hv),
    fun hv => engine_pres_C h (valid_ne_none hv),
    fun hv => engine_avail_pieces h hv,
    fun hv => engine_avail_cartons h hv,
    fun hv => engine_avail_pallets h hv⟩

/-- C2 witness: a record with every field populated by a valid positive
number is returned with the triad untouched and each availability field
rounded up to an integer: pieces "10,5" becomes 11, cartons 3 stays 3,
pallets 2.5 becomes 3. -/
theorem C2_witness :
    Row.availability_pieces outC2w = Value.int 11 ∧
    Row.availability_cartons outC2w = Value.int 3 ∧
    Row.availability_pallets outC2w = Value.int 3 ∧
    Row.piece_per_case outC2w = Value.int 12 := by
  have h := C2_authority rowC2w outC2w (by decide)
  refine ⟨?_, ?_, ?_, ?_⟩
  · rw [h.2.2.2.1 (by decide)]
    decide
  · rw [h.2.2.2.2.1 (by decide)]
    decide
  · rw [h.2.2.2.2.2 (by decide)]
    decide
  · exact h.1 (by decide)

/-- C8 fails as stated: one internal iteration of the engine loop maps a
record whose availability_pieces holds non-numeric text to a record where
that field is absent, so the set of populated fields shrinks across an
iteration. -/
theorem C8_counterexample :
    enginePass { availability_pieces := Value.str "abc" }
      = Except.ok { availability_pieces := Value.none } ∧
    (Row.availability_pieces { availability_pieces := Value.str "abc" } ≠ Value.none) := by
  refine ⟨by decide, by decide⟩

/-- C6 amended: the engine does equal the finalize-once-after-the-loop
reference program on every record whose availability fields are each
absent or numeric on input; the equivalence fails only on records carrying
non-numeric availability junk, which the engine's per-pass finalization
clears mid-loop (the counterexample). -/
theorem C6_reference_equiv (r : Row) (hr : availOk r = true) :
    applyPackagingMath r = referenceEngine r := by
  show engineLoop 3 r = referenceEngine r
  cases hw1 : referencePass r with
  | error e =>
    have hcw : availabilityCore (completePackagingTriad r) =
        Except.error e := hw1
    have hel : enginePass r = Except.error e := by
      unfold enginePass completeAvailability
      rw [hcw]
      rfl
    have hE : engineLoop 3 r = Except.error e := by
      show engineLoop (2 + 1) r = Except.error e
      unfold engineLoop
      rw [hel]
      rfl
    have hRL : referenceLoop 3 r = Except.error e := by
      show referenceLoop (2 + 1) r = Except.error e
      unfold referenceLoop
      rw [hw1]
      rfl
    have hR : referenceEngine r = Except.error e := by
      unfold referenceEngine
      rw [hRL]
      rfl
    rw [hE, hR]
  | ok w1 =>
    have hcw : availabilityCore (completePackagingTriad r) =
        Except.ok w1 := hw1
    have hqw : coreQuiescent w1 := core_quiescent_post hcw
    have ktw := availabilityCore_triad_keeps hcw
    obtain ⟨g1, g2, g3⟩ := triad_quiescent r
    have htw : completePackagingTriad w1 = w1 :=
      triad_noop_of_fields ktw.1 ktw.2.1 ktw.2.2 g1 g2 g3
    have hrp : referencePass w1 = Except.ok w1 := by
      unfold referencePass
      rw [htw]
      exact core_noop hqw
    have hRL : referenceLoop 3 r = Except.ok w1 := by
      show referenceLoop (2 + 1) r = Except.ok w1
      unfold referenceLoop
      rw [hw1]
      simp only [exceptBind_ok]
      by_cases he : rowEq w1 r = true
      · rw [if_pos he]
        rfl
      · rw [if_neg he]
        exact refLoop_fix hrp 2
    cases hf : finalizeAvailabilityInts w1 with
    | error e =>
      have hel : enginePass r = Except.error e := by
        unfold enginePass completeAvailability
        rw [hcw]
        simp only [exceptBind_ok]
        exact hf
      have hE : engineLoop 3 r = Except.error e := by
        show engineLoop (2 + 1) r = Except.error e
        unfold engineLoop
        rw [hel]
        rfl
      have hR : referenceEngine r = Except.error e := by
        unfold referenceEngine
        rw [hRL]
        simp only [exceptBind_ok]
        exact hf
      rw [hE, hR]
    | ok y1 =>
      have hp1 : enginePass r = Except.ok y1 := by
        unfold enginePass
        exact completeAvailability_build hcw hf
      have hfix : enginePass y1 = Except.ok y1 := pass_fix hr hp1
      have hE : engineLoop 3 r = Except.ok y1 := by
        show engineLoop (2 + 1) r = Except.ok y1
        unfold engineLoop
        rw [hp1]
        simp only [exceptBind_ok]
        by_cases he : rowEq y1 r = true
        · rw [if_pos he]
          rfl
        · rw [if_neg he]
          exact loop_fix hfix 2
      have hR : referenceEngine r = Except.ok y1 := by
        unfold referenceEngine
        rw [hRL]
        simp only [exceptBind_ok]
        exact hf
      rw [hE, hR]

/-- C6 amended witness: at Scenario B the engine and the finalize-once
reference agree. -/
theorem C6_witness : applyPackagingMath rowB = referenceEngine rowB :=
  C6_reference_equiv rowB (by decide)

/-- C7 amended: on a tame record, `apply_double_stackable` doubles each
availability field holding a valid positive number and rounds it up to an
integer (the trailing finalization), keeps a numeric non-positive field
unchanged, leaves the triad untouched — but, contrary to the claim, a
non-numeric availability field is affected after all: it is cleared to
absent.  Scenario C holds: cartons 5 with the flag becomes 10, then pieces
is derived as 120. -/
theorem C7_double_stackable (r out : Row) (ht : tameRow r = true)
    (h : applyDoubleStackable r = Except.ok out) :
    (isValidPositiveNumber r.availability_pieces = true →
      out.availability_pieces = ceilIfPos (doubleField r.availability_pieces)) ∧
    (toNumber r.availability_pieces = Option.none →
      out.availability_pieces = Value.none) ∧
    (isValidPositiveNumber r.availability_pieces = false →
      (toNumber r.availability_pieces).isSome = true →
      out.availability_pieces = r.availability_pieces) ∧
    (isValidPositiveNumber r.availability_cartons = true →
      out.availability_cartons = ceilIfPos (doubleField r.availability_cartons)) ∧
    (toNumber r.availability_cartons = Option.none →
      out.availability_cartons = Value.none) ∧
    (isValidPositiveNumber r.availability_cartons = false →
      (toNumber r.availability_cartons).isSome = true →
      out.availability_cartons = r.availability_cartons) ∧
    (isValidPositiveNumber r.availability_pallets = true →
      out.availability_pallets = ceilIfPos (doubleField r.availability_pallets)) ∧
    (toNumber r.availability_pallets = Option.none →
      out.availability_pallets = Value.none) ∧
    (isValidPositiveNumber r.availability_pallets = false →
      (toNumber r.availability_pallets).isSome = true →
      out.availability_pallets = r.availability_pallets) ∧
    out.piece_per_case = r.piece_per_case ∧
    out.case_per_pallet = r.case_per_pallet ∧
    out.pieces_per_pallet = r.pieces_per_pallet ∧
    processRecord
        { availability_cartons := Value.int 5, piece_per_case := Value.int 12 }
        true
      = Except.ok
          { availability_pieces := Value.int 120,
            availability_cartons := Value.int 10,
            piece_per_case := Value.int 12 } := by
  obtain ⟨t1, t2, t3, t4, t5, t6⟩ := tameRow_fields ht
  unfold applyDoubleStackable at h
  obtain ⟨p, c, l, hfp, hfc, hfl, hy⟩ := finalizeRow_ok h
  have sp := dsField_spec t4 hfp
  have sc := dsField_spec t5 hfc
  have sl := dsField_spec t6 hfl
  have hoP : out.availability_pieces = p := by rw [hy]
  have hoC : out.availability_cartons = c := by rw [hy]
  have hoL : out.availability_pallets = l := by rw [hy]
  refine ⟨fun hv => ?_, fun hv => ?_, fun hv hs => ?_,
    fun hv => ?_, fun hv => ?_, fun hv hs => ?_,
    fun hv => ?_, fun hv => ?_, fun hv hs => ?_, ?_, ?_, ?_, by decide⟩
  · rw [hoP]
    exact (sp.1 hv).1
  · rw [hoP]
    exact sp.2.1 hv
  · rw [hoP]
    exact sp.2.2 hv hs
  · rw [hoC]
    exact (sc.1 hv).1
  · rw [hoC]
    exact sc.2.1 hv
  · rw [hoC]
    exact sc.2.2 hv hs
  · rw [hoL]
    exact (sl.1 hv).1
  · rw [hoL]
    exact sl.2.1 hv
  · rw [hoL]
    exact sl.2.2 hv hs
  · rw [hy]
  · rw [hy]
  · rw [hy]

/-- C7 amended witness: availability_pieces 3 with the flag becomes the
rounded-up double 6. -/
theorem C7_witness :
    Row.availability_pieces { availability_pieces := Value.int 6 }
      = ceilIfPos (doubleField
          (Row.availability_pieces { availability_pieces := Value.int 3 })) :=
  (C7_double_stackable { availability_pieces := Value.int 3 }
    { availability_pieces := Value.int 6 } (by decide) (by decide)).1
    (by decide)

/-- C8 amended: one internal iteration of the engine loop never empties a
triad field and never empties an availability field that held a numeric
value; contrary to the claim, an availability field holding non-numeric
text is cleared to absent by the iteration's trailing finalization, so the
populated set can shrink only at such junk fields (the counterexample). -/
theorem C8_monotonic (x z : Row) (h : enginePass x = Except.ok z) :
    (x.piece_per_case ≠ Value.none → z.piece_per_case ≠ Value.none) ∧
    (x.case_per_pallet ≠ Value.none → z.case_per_pallet ≠ Value.none) ∧
    (x.pieces_per_pallet ≠ Value.none → z.pieces_per_pallet ≠ Value.none) ∧
    ((toNumber x.availability_pieces).isSome = true →
      z.availability_pieces ≠ Value.none) ∧
    ((toNumber x.availability_cartons).isSome = true →
      z.availability_cartons ≠ Value.none) ∧
    ((toNumber x.availability_pallets).isSome = true →
      z.availability_pallets ≠ Value.none) := by
  obtain ⟨w, hw, hf⟩ := enginePass_ok h
  have kt1 := availabilityCore_triad_keeps hw
  have kt2 := finalizeRow_triad_keeps hf
  have ktr := triad_avail_keeps x
  have hwc := availabilityCore_writes hw
  obtain ⟨p, c, l, hp, hc, hl, hy⟩ := finalizeRow_ok hf
  have hzP : z.availability_pieces = p := by rw [hy]
  have hzC : z.availability_cartons = c := by rw [hy]
  have hzL : z.availability_pallets = l := by rw [hy]
  refine ⟨?_, ?_, ?_, ?_, ?_, ?_⟩
  · intro hne
    rw [kt2.1, kt1.1, triad_A_skip (fun hg => hne hg.2.2)]
    exact hne
  · intro hne
    rw [kt2.2.1, kt1.2.1, triad_B_skip (fun hg => hne hg.2.2)]
    exact hne
  · intro hne
    rw [kt2.2.2, kt1.2.2, triad_C_skip (fun hg => hne hg.2.2)]
    exact hne
  · intro hs
    rw [hzP]
    rcases hwc.1 with he | ⟨_, n, he⟩
    · rw [he, ktr.1] at hp
      exact fin_keep_nonnone hs hp
    · rw [he] at hp
      exact fin_keep_nonnone (by rw [toNumber_int]; rfl) hp
  · intro hs
    rw [hzC]
    rcases hwc.2.1 with he | ⟨_, n, he⟩
    · rw [he, ktr.2.1] at hc
      exact fin_keep_nonnone hs hc
    · rw [he] at hc
      exact fin_keep_nonnone (by rw [toNumber_int]; rfl) hc
  · intro hs
    rw [hzL]
    rcases hwc.2.2 with he | ⟨_, n, he⟩
    · rw [he, ktr.2.2] at hl
      exact fin_keep_nonnone hs hl
    · rw [he] at hl
      exact fin_keep_nonnone (by rw [toNumber_int]; rfl) hl

/-- C8 amended witness: a populated triad divisor stays populated across
an iteration that derives cartons from pieces. -/
theorem C8_witness :
    Row.piece_per_case
        { piece_per_case := Value.int 12, availability_pieces := Value.int 5,
          availability_cartons := Value.int 1 }
      ≠ Value.none :=
  (C8_monotonic
    { piece_per_case := Value.int 12, availability_pieces := Value.int 5 }
    { piece_per_case := Value.int 12, availability_pieces := Value.int 5,
      availability_cartons := Value.int 1 }
    (by decide)).1 (by decide)

/-- C9: the engine is idempotent: a record returned by
`apply_packaging_math` is a fixed point of it, because every exit of the
loop — an unchanged snapshot after some pass, or the iteration cap after
three passes — leaves a record on which one further pass writes nothing
and raises nothing. -/
theorem C9_idempotent (r rout : Row)
    (h : applyPackagingMath r = Except.ok rout) :
    applyPackagingMath rout = Except.ok rout := by
  have h3 : engineLoop (2 + 1) r = Except.ok rout := h
  have hfix : enginePass rout = Except.ok rout := by
    obtain ⟨y1, hp1, hc1⟩ := engineLoop_succ_cases h3
    rcases hc1 with ⟨he1, rfl⟩ | ⟨_, h2⟩
    · exact stable_exit hp1 he1
    · have hav1 : availOk y1 = true := pass_availOk hp1
      obtain ⟨y2, hp2, hc2⟩ := engineLoop_succ_cases h2
      rcases hc2 with ⟨he2, rfl⟩ | ⟨_, h1b⟩
      · exact stable_exit hp2 he2
      · obtain ⟨y3, hp3, hc3⟩ := engineLoop_succ_cases h1b
        rcases hc3 with ⟨he3, rfl⟩ | ⟨_, h0b⟩
        · exact stable_exit hp3 he3
        · have hr3 : y3 = rout := by
            unfold engineLoop at h0b
            exact Except.ok.inj h0b
          have hfix2 : enginePass y2 = Except.ok y2 := pass_fix hav1 hp2
          have hy23 : y2 = y3 := Except.ok.inj (hfix2.symm.trans hp3)
          rw [← hr3, ← hy23]
          exact hfix2
  show engineLoop 3 rout = Except.ok rout
  exact loop_fix hfix 3

/-- C9 witness: applying the engine to the Scenario B output returns it
unchanged. -/
theorem C9_witness : applyPackagingMath outB = Except.ok outB :=
  C9_idempotent rowB outB (by decide)

end PackagingMath
